import Mathlib

/-!
# kid: a timestamp / machine / node / sequence ID generator

Shallow embedding of `src/main.go` (package `main`).

* Go `int64` values are integers (`Int`); every arithmetic operation of the
  source that can leave the 64-bit range is wrapped with `wrap64`
  (two's complement wrap-around), and the bitwise operators act on the
  64-bit pattern `bits64` of the operand.
* The package-level variables `last_ts` and `seq` form the record `State`;
  `gen` takes the state and the clock reading `time.Now().Unix()` as
  arguments and returns the new state next to its two results.
* The consul client `kv` is the function from keys to the outcome of
  `kv.Get`; `log.Panic` is the result `Outcome.panic`.
-/

namespace Kid

/-! ## Constants (main.go 39-51) -/

/-- Source: `const epoch = 1451606400  // 2016-1-1`. -/
def epoch : Int := 1451606400

/-- Source: `const TS_OFFSET = 29`. -/
def TS_OFFSET : Nat := 29
/-- Source: `const MACHINE_OFFSET = 23`. -/
def MACHINE_OFFSET : Nat := 23
/-- Source: `const NODE_OFFSET = 17`. -/
def NODE_OFFSET : Nat := 17

/-- Source: `const TS_MASK = 0x1FFFFFFF`. -/
def TS_MASK : Nat := 0x1FFFFFFF
/-- Source: `const MACHINE_MASK = 0x3F`. -/
def MACHINE_MASK : Nat := 0x3F
/-- Source: `const NODE_MASK = 0x3F`. -/
def NODE_MASK : Nat := 0x3F
/-- Source: `const SEQ_MASK = 0x1FFFF`. -/
def SEQ_MASK : Nat := 0x1FFFF

/-- Source: `var MAX_SEQ int64 = int64(math.Pow(2, 18)) - 1`. -/
def MAX_SEQ : Int := 2 ^ 18 - 1

/-! ## 64-bit integers -/

/-- Two's complement wrap-around of an integer into the `int64` range. -/
def wrap64 (x : Int) : Int := (x + 2 ^ 63) % 2 ^ 64 - 2 ^ 63

/-- The 64-bit pattern of an `int64` (also of a sign-extended Go `int`),
read as an unsigned number. -/
def bits64 (x : Int) : Nat := (x % 2 ^ 64).toNat

/-- The values an `int64` can hold. -/
def isInt64 (x : Int) : Prop := -(2 ^ 63) ≤ x ∧ x < 2 ^ 63

instance (x : Int) : Decidable (isInt64 x) := by
  unfold isInt64; infer_instance

/-! ## Generator state (main.go 53-56) -/

/-- The package variables `last_ts` and `seq`. -/
structure State where
  last_ts : Int
  seq : Int
  deriving DecidableEq, Repr

/-- Source: `var last_ts int64 = -1`, `var seq int64 = 0`. -/
def State.init : State := { last_ts := -1, seq := 0 }

/-- The two errors `gen` builds with `fmt.Errorf`:
`"Please wait for %d s"` with `last_ts - now`, and `"Please wait for 1s"`. -/
inductive GenError where
  | waitFor (secs : Int)
  | waitOneSecond
  deriving DecidableEq, Repr

/-- What one call of `gen` leaves behind: its results `(id, err)` and the
package variables after the call. -/
structure GenOut where
  id : Int
  err : Option GenError
  st : State
  deriving DecidableEq, Repr

/-! ## gen (main.go 117-166) -/

/-- The packing expression of `gen`, lines 158-161:
`((int64(ts) & TS_MASK) << TS_OFFSET) + ((int64(machine_id) & MACHINE_MASK) << MACHINE_OFFSET)
 + ((int64(node_id) & NODE_MASK) << NODE_OFFSET) + (seq & SEQ_MASK)`. -/
def pack (ts machine_id node_id seq : Int) : Int :=
  wrap64 ((((bits64 ts &&& TS_MASK) <<< TS_OFFSET) +
           ((bits64 machine_id &&& MACHINE_MASK) <<< MACHINE_OFFSET) +
           ((bits64 node_id &&& NODE_MASK) <<< NODE_OFFSET) +
           (bits64 seq &&& SEQ_MASK) : Nat) : Int)

/-- Source: `func gen(machine_id int, node_id int) (id int64, err error)`,
with `now := time.Now().Unix()` and the package variables made explicit.
The print statements are left out. -/
def gen (now machine_id node_id : Int) (s : State) : GenOut :=
  if s.last_ts ≠ -1 ∧ now < s.last_ts then
    { id := -1, err := some (.waitFor (wrap64 (s.last_ts - now))), st := s }
  else if s.last_ts = now then
    let seq1 := wrap64 (s.seq + 1)
    if seq1 ≥ MAX_SEQ then
      { id := -1, err := some .waitOneSecond, st := { last_ts := s.last_ts, seq := seq1 } }
    else
      { id := pack (wrap64 (now - epoch)) machine_id node_id seq1, err := none,
        st := { last_ts := now, seq := seq1 } }
  else
    { id := pack (wrap64 (now - epoch)) machine_id node_id 0, err := none,
      st := { last_ts := now, seq := 0 } }

/-- Successive calls of `gen(machine_id, node_id)`, one per clock reading,
the package variables threaded from call to call. -/
def runGen (machine_id node_id : Int) : State → List Int → List GenOut
  | _, [] => []
  | s, now :: rest =>
    let o := gen now machine_id node_id s
    o :: runGen machine_id node_id o.st rest

/-- The package variables after a run of calls. -/
def finalState (machine_id node_id : Int) : State → List Int → State
  | s, [] => s
  | s, now :: rest => finalState machine_id node_id (gen now machine_id node_id s).st rest

/-! ## Reading an ID by the bit layout

The repository has no decoder. The fields of an ID are read off the layout
that the constants fix: timestamp in bits 29-57, machine in bits 23-28,
node in bits 17-22, sequence in bits 0-16. -/

/-- Bits 29-57 of an ID. -/
def tsField (id : Int) : Int := (((bits64 id >>> TS_OFFSET) &&& TS_MASK : Nat) : Int)
/-- Bits 23-28 of an ID. -/
def machineField (id : Int) : Int := (((bits64 id >>> MACHINE_OFFSET) &&& MACHINE_MASK : Nat) : Int)
/-- Bits 17-22 of an ID. -/
def nodeField (id : Int) : Int := (((bits64 id >>> NODE_OFFSET) &&& NODE_MASK : Nat) : Int)
/-- Bits 0-16 of an ID. -/
def seqField (id : Int) : Int := (((bits64 id &&& SEQ_MASK : Nat)) : Int)

/-! ## Configuration (main.go 16-30) -/

/-- Source: `type Config struct`. Go `int` fields are integers. -/
structure Config where
  port : String
  node_id : Int
  machine_id : Int
  consul_addr : String
  deriving DecidableEq, Repr

/-- Source: `func (c *Config) parse()`. The four flags are given as optional
values (absent: the default of the flag). `flag.IntVar` stores whatever
integer the command line holds; `parse` has no further check. -/
def Config.parse (port : Option String) (machine node : Option Int)
    (consul_addr : Option String) : Config :=
  { port := port.getD "6379",
    machine_id := machine.getD 0,
    node_id := node.getD 0,
    consul_addr := consul_addr.getD "127.0.0.1:8500" }

/-- The `incr` case of the command handler (main.go 209-216), as far as the
generator is concerned: `gen(config.machine_id, config.node_id)`. -/
def incr (config : Config) (now : Int) (s : State) : GenOut :=
  gen now config.machine_id config.node_id s

/-! ## Decimal text of an int64 (Go `strconv`) -/

/-- Value of a decimal digit character. -/
def digitValue (c : Char) : Option Nat :=
  if '0' ≤ c ∧ c ≤ '9' then some (c.toNat - '0'.toNat) else none

/-- Digits read left to right onto an accumulator; `none` at the first
character that is no decimal digit. -/
def parseDigits : List Char → Nat → Option Nat
  | [], acc => some acc
  | c :: cs, acc =>
    match digitValue c with
    | none => none
    | some d => parseDigits cs (acc * 10 + d)

/-- The magnitude part of `strconv.ParseInt`: a non-empty run of digits. -/
def parseMagnitude (cs : List Char) : Option Nat :=
  if cs = [] then none else parseDigits cs 0

/-- Go `strconv.ParseInt(s, 10, 64)`: an optional sign, then at least one
decimal digit, the value within the int64 range; `none` stands for every
non-nil error (syntax or range). -/
def ParseInt (s : String) : Option Int :=
  match s.data with
  | [] => none
  | c :: cs =>
    if c = '-' then
      match parseMagnitude cs with
      | none => none
      | some n => if n ≤ 2 ^ 63 then some (-(n : Int)) else none
    else
      match parseMagnitude (if c = '+' then cs else c :: cs) with
      | none => none
      | some n => if n < 2 ^ 63 then some (n : Int) else none

/-- Go `strconv.FormatInt(x, 10)`: the decimal digits of the magnitude,
after a minus sign when `x` is negative. -/
def FormatInt (x : Int) : String :=
  if x < 0 then String.mk ('-' :: Nat.toDigits 10 x.natAbs)
  else String.mk (Nat.toDigits 10 x.toNat)

/-- Text of the error of `gen`, as `fmt.Errorf` formats it. -/
def GenError.message : GenError → String
  | .waitFor secs => "Please wait for " ++ FormatInt secs ++ " s"
  | .waitOneSecond => "Please wait for 1s"

/-! ## Clock watermark in the coordination store (main.go 63-94) -/

/-- What `kv.Get(key, nil)` gives back: a non-nil error, no pair
(`kvpair == nil`), or a pair with its value. -/
inductive KVGet where
  | error
  | absent
  | present (value : String)
  deriving DecidableEq, Repr

/-- A call that either returns `a` or ends in `log.Panic`. -/
inductive Outcome (α : Type) where
  | panic
  | ret (a : α)
  deriving DecidableEq, Repr

/-- The error `check_last_ts` builds:
`fmt.Errorf("Bad datetime: ts %d < last %d", ts, _last_ts)`. -/
inductive CheckError where
  | badDatetime (ts last : Int)
  deriving DecidableEq, Repr

/-- Text of the error, as `fmt.Errorf` formats it. -/
def CheckError.message : CheckError → String
  | .badDatetime ts last => "Bad datetime: ts " ++ FormatInt ts ++ " < last " ++ FormatInt last

/-- Source: `func get_last_ts_key(machine_id int) string`,
`fmt.Sprintf("machine_%d/ts", machine_id)`. -/
def get_last_ts_key (machine_id : Int) : String :=
  "machine_" ++ FormatInt machine_id ++ "/ts"

/-- Source: `func check_last_ts(ts int64, machine_id int, kv *api.KV) (result int, err error)`. -/
def check_last_ts (ts machine_id : Int) (kv : String → KVGet) :
    Outcome (Int × Option CheckError) :=
  let key := get_last_ts_key machine_id
  match kv key with
  | .error => .panic
  | .absent => .ret (1, none)
  | .present value =>
    match ParseInt value with
    | none => .panic
    | some _last_ts =>
      if _last_ts = 0 then .ret (1, none)
      else if ts < _last_ts then .ret (-1, some (.badDatetime ts _last_ts))
      else .ret (1, none)

/-! ## Writing the watermark (main.go 96-105) -/

/-- The coordination store as a map from keys to values. -/
def Store : Type := String → Option String

/-- Reading the map with `kv.Get`: a pair exactly when the key is bound. -/
def Store.get (store : Store) (key : String) : KVGet :=
  match store key with
  | none => .absent
  | some value => .present value

/-- Writing the map with `kv.Put`: the key is bound to the value, every
other key keeps what it had. -/
def Store.put (store : Store) (key value : String) : Store :=
  fun k => if k = key then some value else store k

/-- What `kv.Put(&kvpair, nil)` gives back: a non-nil error, or nil once the
pair is written. -/
inductive KVPut where
  | error
  | ok
  deriving DecidableEq, Repr

/-- Source: `func update_last_ts(ts int64, machine_id int, kv *api.KV) (result int, err error)`.
The outcome of `kv.Put` is an argument; the second component is the store
after the call. -/
def update_last_ts (ts machine_id : Int) (store : Store) (put : KVPut) :
    Outcome (Int × Option CheckError) × Store :=
  let key := get_last_ts_key machine_id
  let value := FormatInt ts
  match put with
  | .error => (.panic, store)
  | .ok => (.ret (1, none), store.put key value)

/-- Lines 70-83 of `check_last_ts` on their own: the watermark the function
compares the clock with, `none` when the store has no pair. -/
def read_last_ts (machine_id : Int) (kv : String → KVGet) : Outcome (Option Int) :=
  match kv (get_last_ts_key machine_id) with
  | .error => .panic
  | .absent => .ret none
  | .present value =>
    match ParseInt value with
    | none => .panic
    | some _last_ts => .ret (some _last_ts)

/-! ## Measures on IDs and runs -/

/-- Bit 63 of an ID, the sign bit. -/
def signBit (id : Int) : Nat := (bits64 id >>> 63) &&& 1

/-- Number of calls in a run that succeeded while observing the second `t`
(a successful call records the second it observed in `last_ts`). -/
def successesAt (t : Int) (outs : List GenOut) : Nat :=
  outs.countP (fun o => decide (o.err = none ∧ o.st.last_ts = t))

/-! ## Arithmetic form of the packing -/

theorem bits64_and_mask (x : Int) (k : Nat) (hk : k ≤ 64) :
    ((bits64 x &&& (2 ^ k - 1) : Nat) : Int) = x % 2 ^ k := by
  rw [Nat.and_pow_two_sub_one_eq_mod]
  unfold bits64
  have h64 : (0 : Int) ≤ x % 2 ^ 64 := Int.emod_nonneg _ (by positivity)
  rw [Int.natCast_mod, Int.toNat_of_nonneg h64]
  push_cast
  exact Int.emod_emod_of_dvd x (pow_dvd_pow 2 hk)

theorem pack_eq (ts m n s : Int) :
    pack ts m n s = ts % 2 ^ 29 * 2 ^ 29 + m % 64 * 2 ^ 23 + n % 64 * 2 ^ 17 + s % 2 ^ 17 := by
  have h1 := bits64_and_mask ts 29 (by norm_num)
  have h2 := bits64_and_mask m 6 (by norm_num)
  have h3 := bits64_and_mask n 6 (by norm_num)
  have h4 := bits64_and_mask s 17 (by norm_num)
  unfold pack TS_MASK MACHINE_MASK NODE_MASK SEQ_MASK TS_OFFSET MACHINE_OFFSET NODE_OFFSET wrap64
  simp only [Nat.shiftLeft_eq]
  norm_num at h1 h2 h3 h4 ⊢
  rw [h1, h2, h3, h4]
  omega

theorem pack_nonneg (ts m n s : Int) : 0 ≤ pack ts m n s := by
  rw [pack_eq]; omega

theorem pack_lt (ts m n s : Int) : pack ts m n s < 2 ^ 58 := by
  rw [pack_eq]; omega

theorem pack_wrap64_ts (x m n s : Int) : pack (wrap64 x) m n s = pack x m n s := by
  rw [pack_eq, pack_eq]; unfold wrap64; omega

theorem bits64_of_nonneg (x : Int) (h0 : 0 ≤ x) (h1 : x < 2 ^ 64) : (bits64 x : Int) = x := by
  unfold bits64
  omega

theorem field_eq (id : Int) (off k : Nat) (h0 : 0 ≤ id) (h1 : id < 2 ^ 64) :
    (((bits64 id >>> off) &&& (2 ^ k - 1) : Nat) : Int) = id / 2 ^ off % 2 ^ k := by
  have hb := bits64_of_nonneg id h0 h1
  rw [Nat.and_pow_two_sub_one_eq_mod, Nat.shiftRight_eq_div_pow]
  push_cast
  rw [hb]

theorem tsField_eq (id : Int) (h0 : 0 ≤ id) (h1 : id < 2 ^ 64) :
    tsField id = id / 2 ^ 29 % 2 ^ 29 := by
  have h := field_eq id 29 29 h0 h1
  norm_num at h
  exact h

theorem machineField_eq (id : Int) (h0 : 0 ≤ id) (h1 : id < 2 ^ 64) :
    machineField id = id / 2 ^ 23 % 2 ^ 6 := by
  have h := field_eq id 23 6 h0 h1
  norm_num at h
  exact h

theorem nodeField_eq (id : Int) (h0 : 0 ≤ id) (h1 : id < 2 ^ 64) :
    nodeField id = id / 2 ^ 17 % 2 ^ 6 := by
  have h := field_eq id 17 6 h0 h1
  norm_num at h
  exact h

theorem seqField_eq (id : Int) (h0 : 0 ≤ id) (h1 : id < 2 ^ 64) :
    seqField id = id % 2 ^ 17 := by
  have h := field_eq id 0 17 h0 h1
  norm_num at h
  exact h

theorem tsField_pack (ts m n s : Int) : tsField (pack ts m n s) = ts % 2 ^ 29 := by
  have h0 := pack_nonneg ts m n s
  have h1 := pack_lt ts m n s
  rw [tsField_eq _ h0 (by omega), pack_eq]
  omega

theorem machineField_pack (ts m n s : Int) : machineField (pack ts m n s) = m % 64 := by
  have h0 := pack_nonneg ts m n s
  have h1 := pack_lt ts m n s
  rw [machineField_eq _ h0 (by omega), pack_eq]
  omega

theorem nodeField_pack (ts m n s : Int) : nodeField (pack ts m n s) = n % 64 := by
  have h0 := pack_nonneg ts m n s
  have h1 := pack_lt ts m n s
  rw [nodeField_eq _ h0 (by omega), pack_eq]
  omega

theorem seqField_pack (ts m n s : Int) : seqField (pack ts m n s) = s % 2 ^ 17 := by
  have h0 := pack_nonneg ts m n s
  have h1 := pack_lt ts m n s
  rw [seqField_eq _ h0 (by omega), pack_eq]
  omega

/-! ## Decimal text: formatting then parsing -/

theorem digitValue_digitChar (d : Nat) (h : d < 10) :
    digitValue (Nat.digitChar d) = some d := by
  interval_cases d <;> decide

theorem parseDigits_toDigitsCore (f : Nat) :
    ∀ (n : Nat) (ds : List Char), n < f →
      parseDigits (Nat.toDigitsCore 10 f n ds) 0 = parseDigits ds n := by
  induction f with
  | zero => intro n ds h; omega
  | succ f ih =>
    intro n ds h
    have hd := digitValue_digitChar (n % 10) (Nat.mod_lt _ (by norm_num))
    simp only [Nat.toDigitsCore]
    split
    · rename_i h0
      simp only [parseDigits, hd]
      congr 1
      omega
    · rename_i h0
      rw [ih (n / 10) _ (by omega)]
      simp only [parseDigits, hd]
      congr 1
      omega

theorem parseDigits_toDigits (n : Nat) : parseDigits (Nat.toDigits 10 n) 0 = some n := by
  unfold Nat.toDigits
  rw [parseDigits_toDigitsCore (n + 1) n [] (by omega)]
  rfl

theorem toDigitsCore_ne_nil (f : Nat) :
    ∀ (n : Nat) (ds : List Char), ds ≠ [] → Nat.toDigitsCore 10 f n ds ≠ [] := by
  induction f with
  | zero => intro n ds h; simpa [Nat.toDigitsCore] using h
  | succ f ih =>
    intro n ds _
    simp only [Nat.toDigitsCore]
    split
    · simp
    · exact ih _ _ (by simp)

theorem toDigits_ne_nil (n : Nat) : Nat.toDigits 10 n ≠ [] := by
  unfold Nat.toDigits
  simp only [Nat.toDigitsCore]
  split
  · simp
  · exact toDigitsCore_ne_nil _ _ _ (by simp)

theorem parseMagnitude_toDigits (n : Nat) : parseMagnitude (Nat.toDigits 10 n) = some n := by
  unfold parseMagnitude
  rw [if_neg (toDigits_ne_nil n)]
  exact parseDigits_toDigits n

theorem ParseInt_FormatInt (x : Int) (hx : isInt64 x) : ParseInt (FormatInt x) = some x := by
  obtain ⟨hlo, hhi⟩ := hx
  unfold FormatInt
  by_cases hneg : x < 0
  · rw [if_pos hneg]
    simp only [ParseInt, if_true, parseMagnitude_toDigits]
    have h1 : x.natAbs ≤ 2 ^ 63 := by omega
    rw [if_pos h1]
    congr 1
    omega
  · rw [if_neg hneg]
    have hne := toDigits_ne_nil x.toNat
    have hpd := parseDigits_toDigits x.toNat
    have hpm := parseMagnitude_toDigits x.toNat
    unfold ParseInt
    cases hl : Nat.toDigits 10 x.toNat with
    | nil => exact absurd hl hne
    | cons c cs =>
      rw [hl] at hpd hpm
      have hdig : digitValue c ≠ none := by
        intro hc
        simp [parseDigits, hc] at hpd
      have hminus : c ≠ '-' := by
        intro hc; apply hdig; rw [hc]; decide
      have hplus : c ≠ '+' := by
        intro hc; apply hdig; rw [hc]; decide
      simp only [hminus, hplus, if_false, hpm]
      have h1 : x.toNat < 2 ^ 63 := by omega
      rw [if_pos h1]
      congr 1
      omega

/-! ## One call of gen, branch by branch -/

theorem wrap64_of_isInt64 (x : Int) (h : isInt64 x) : wrap64 x = x := by
  obtain ⟨h0, h1⟩ := h
  unfold wrap64
  omega

theorem gen_regressed (now m n : Int) (s : State) (hset : s.last_ts ≠ -1)
    (hlt : now < s.last_ts) :
    gen now m n s = { id := -1, err := some (.waitFor (wrap64 (s.last_ts - now))), st := s } := by
  unfold gen
  rw [if_pos ⟨hset, hlt⟩]

theorem gen_fresh (now m n : Int) (s : State)
    (h : (s.last_ts = -1 ∧ now ≠ -1) ∨ s.last_ts < now) :
    gen now m n s =
      { id := pack (now - epoch) m n 0, err := none, st := { last_ts := now, seq := 0 } } := by
  unfold gen
  have h1 : ¬(s.last_ts ≠ -1 ∧ now < s.last_ts) := by omega
  have h2 : ¬(s.last_ts = now) := by omega
  rw [if_neg h1, if_neg h2, pack_wrap64_ts]

theorem gen_same_ok (now m n : Int) (s : State) (hsame : s.last_ts = now)
    (h0 : -(2 ^ 63) ≤ s.seq + 1) (h1 : s.seq + 1 < MAX_SEQ) :
    gen now m n s =
      { id := pack (now - epoch) m n (s.seq + 1), err := none,
        st := { last_ts := now, seq := s.seq + 1 } } := by
  have hw : wrap64 (s.seq + 1) = s.seq + 1 := by
    unfold MAX_SEQ at h1
    exact wrap64_of_isInt64 _ ⟨h0, by omega⟩
  unfold gen
  have hc : ¬(s.last_ts ≠ -1 ∧ now < s.last_ts) := by omega
  rw [if_neg hc, if_pos hsame]
  simp only [hw]
  rw [if_neg (by omega), pack_wrap64_ts]

theorem gen_same_exhausted (now m n : Int) (s : State) (hsame : s.last_ts = now)
    (h0 : MAX_SEQ ≤ s.seq + 1) (h1 : s.seq + 1 < 2 ^ 63) :
    gen now m n s =
      { id := -1, err := some .waitOneSecond, st := { last_ts := now, seq := s.seq + 1 } } := by
  have hw : wrap64 (s.seq + 1) = s.seq + 1 := by
    unfold MAX_SEQ at h0
    exact wrap64_of_isInt64 _ ⟨by omega, h1⟩
  unfold gen
  have hc : ¬(s.last_ts ≠ -1 ∧ now < s.last_ts) := by omega
  rw [if_neg hc, if_pos hsame]
  simp only [hw]
  rw [if_pos (by omega), hsame]

/-- The four ways a call of gen can go. -/
theorem gen_cases (now m n : Int) (s : State) :
    (s.last_ts ≠ -1 ∧ now < s.last_ts ∧
      gen now m n s =
        { id := -1, err := some (.waitFor (wrap64 (s.last_ts - now))), st := s }) ∨
    (s.last_ts = now ∧ MAX_SEQ ≤ wrap64 (s.seq + 1) ∧
      gen now m n s =
        { id := -1, err := some .waitOneSecond,
          st := { last_ts := now, seq := wrap64 (s.seq + 1) } }) ∨
    (s.last_ts = now ∧ wrap64 (s.seq + 1) < MAX_SEQ ∧
      gen now m n s =
        { id := pack (now - epoch) m n (wrap64 (s.seq + 1)), err := none,
          st := { last_ts := now, seq := wrap64 (s.seq + 1) } }) ∨
    (¬(s.last_ts ≠ -1 ∧ now < s.last_ts) ∧ s.last_ts ≠ now ∧
      gen now m n s =
        { id := pack (now - epoch) m n 0, err := none, st := { last_ts := now, seq := 0 } }) := by
  unfold gen
  by_cases h1 : s.last_ts ≠ -1 ∧ now < s.last_ts
  · left
    exact ⟨h1.1, h1.2, by rw [if_pos h1]⟩
  · right
    rw [if_neg h1]
    by_cases h2 : s.last_ts = now
    · rw [if_pos h2]
      by_cases h3 : wrap64 (s.seq + 1) ≥ MAX_SEQ
      · left
        refine ⟨h2, h3, ?_⟩
        simp only [h3, if_true, h2]
      · right; left
        refine ⟨h2, by omega, ?_⟩
        simp only [h3, if_false, pack_wrap64_ts]
    · right; right
      refine ⟨h1, h2, ?_⟩
      rw [if_neg h2, pack_wrap64_ts]

/-- A successful call records the clock reading and its ID packs the
recorded second and the sequence counter it leaves behind. -/
theorem gen_ok_shape (now m n : Int) (s : State) (hok : (gen now m n s).err = none) :
    (gen now m n s).st.last_ts = now ∧
      (gen now m n s).id = pack (now - epoch) m n (gen now m n s).st.seq := by
  rcases gen_cases now m n s with ⟨_, _, h⟩ | ⟨_, _, h⟩ | ⟨_, _, h⟩ | ⟨_, _, h⟩
  · rw [h] at hok; exact absurd hok (by simp)
  · rw [h] at hok; exact absurd hok (by simp)
  · rw [h]; exact ⟨rfl, rfl⟩
  · rw [h]; exact ⟨rfl, rfl⟩

/-- The outcome of a call without its ID: error and state. -/
theorem gen_err_st (now m n : Int) (s : State) :
    ((gen now m n s).err, (gen now m n s).st) =
      if s.last_ts ≠ -1 ∧ now < s.last_ts then
        (some (.waitFor (wrap64 (s.last_ts - now))), s)
      else if s.last_ts = now then
        if MAX_SEQ ≤ wrap64 (s.seq + 1) then
          (some .waitOneSecond, { last_ts := now, seq := wrap64 (s.seq + 1) })
        else (none, { last_ts := now, seq := wrap64 (s.seq + 1) })
      else (none, { last_ts := now, seq := 0 }) := by
  rcases gen_cases now m n s with ⟨a, b, h⟩ | ⟨a, b, h⟩ | ⟨a, b, h⟩ | ⟨a, b, h⟩
  · rw [h, if_pos ⟨a, b⟩]
  · rw [h, if_neg (by omega), if_pos a, if_pos b]
  · rw [h, if_neg (by omega), if_pos a, if_neg (by omega)]
  · rw [h, if_neg a, if_neg b]

/-- Whether a call succeeds, and the state it leaves, do not depend on the
identifiers. -/
theorem gen_err_st_ids (now m n m2 n2 : Int) (s : State) :
    (gen now m n s).err = (gen now m2 n2 s).err ∧ (gen now m n s).st = (gen now m2 n2 s).st := by
  have h := (gen_err_st now m n s).trans (gen_err_st now m2 n2 s).symm
  exact ⟨congrArg Prod.fst h, congrArg Prod.snd h⟩

/-! ## Runs of calls -/

theorem runGen_length (m n : Int) (nows : List Int) :
    ∀ s : State, (runGen m n s nows).length = nows.length := by
  induction nows with
  | nil => intro s; rfl
  | cons now rest ih => intro s; simp [runGen, ih]

/-- The k-th call of a run is gen at the k-th clock reading, in the state
the first k calls leave. -/
theorem runGen_getElem? (m n : Int) (nows : List Int) :
    ∀ (s : State) (k : Nat),
      (runGen m n s nows)[k]? =
        (nows[k]?).map (fun now => gen now m n (finalState m n s (nows.take k))) := by
  induction nows with
  | nil => intro s k; simp [runGen]
  | cons now rest ih =>
    intro s k
    cases k with
    | zero => simp [runGen, finalState]
    | succ k => simp [runGen, finalState, ih]

/-- Calls that stay in the recorded second count the sequence up, as long
as it stays below MAX_SEQ. -/
theorem finalState_same_second (m n now : Int) (k : Nat) :
    ∀ s : State, s.last_ts = now → 0 ≤ s.seq → s.seq + k < MAX_SEQ →
      finalState m n s (List.replicate k now) = { last_ts := now, seq := s.seq + k } := by
  induction k with
  | zero =>
    intro s h1 _ _
    cases s
    simp_all [finalState]
  | succ k ih =>
    intro s h1 h2 h3
    have hstep := gen_same_ok now m n s h1 (by omega) (by push_cast at h3; omega)
    rw [List.replicate_succ, finalState, hstep, ih _ rfl (by show 0 ≤ s.seq + 1; omega)
      (by push_cast at h3; show s.seq + 1 + (k : Int) < MAX_SEQ; omega)]
    congr 1
    push_cast
    omega

/-- From the initial state, k + 1 calls at one clock reading other than -1
leave the sequence counter at k, as long as k is below MAX_SEQ. -/
theorem finalState_init_same_second (m n now : Int) (k : Nat) (hnow : now ≠ -1)
    (hk : (k : Int) < MAX_SEQ) :
    finalState m n State.init (List.replicate (k + 1) now) = { last_ts := now, seq := k } := by
  have h0 := gen_fresh now m n State.init (Or.inl ⟨rfl, hnow⟩)
  rw [List.replicate_succ, finalState, h0,
    finalState_same_second m n now k _ rfl (by simp) (by simp only; omega)]
  simp

/-- From the initial state, the k-th call (k = 0, 1, ...) of a run at one
clock reading other than -1 succeeds with sequence counter k, as long as k
is below MAX_SEQ. -/
theorem runGen_same_second (m n now : Int) (N k : Nat) (hnow : now ≠ -1) (hkN : k < N)
    (hk : (k : Int) < MAX_SEQ) :
    (runGen m n State.init (List.replicate N now))[k]? =
      some { id := pack (now - epoch) m n k, err := none, st := { last_ts := now, seq := k } } := by
  rw [runGen_getElem?, List.getElem?_replicate_of_lt hkN, List.take_replicate,
    Nat.min_eq_left (Nat.le_of_lt hkN)]
  simp only [Option.map_some']
  cases k with
  | zero =>
    simp only [List.replicate_zero, finalState]
    rw [gen_fresh now m n State.init (Or.inl ⟨rfl, hnow⟩)]
    simp
  | succ j =>
    rw [finalState_init_same_second m n now j hnow (by push_cast at hk; omega)]
    rw [gen_same_ok now m n _ rfl (by simp only; omega) (by push_cast at hk; simp only; omega)]
    simp

/-- From the initial state, the call number MAX_SEQ (counted from 0) of a
run at one clock reading fails with the wait-one-second error. -/
theorem runGen_same_second_exhausted (m n now : Int) (N : Nat) (hnow : now ≠ -1)
    (hN : 262143 < N) :
    (runGen m n State.init (List.replicate N now))[262143]? =
      some { id := -1, err := some .waitOneSecond,
             st := { last_ts := now, seq := 262143 } } := by
  rw [runGen_getElem?, List.getElem?_replicate_of_lt hN, List.take_replicate,
    Nat.min_eq_left (Nat.le_of_lt hN)]
  simp only [Option.map_some']
  rw [finalState_init_same_second m n now 262142 hnow (by decide)]
  rw [gen_same_exhausted now m n { last_ts := now, seq := ((262142 : Nat) : Int) } rfl
    (by show MAX_SEQ ≤ ((262142 : Nat) : Int) + 1; decide)
    (by show ((262142 : Nat) : Int) + 1 < 2 ^ 63; decide)]
  simp

/-- A call in the recorded second always leaves the counter one higher
(modulo 2^64), whether it succeeds or not. -/
theorem gen_same_st (now m n : Int) (s : State) (hsame : s.last_ts = now) :
    (gen now m n s).st = { last_ts := now, seq := wrap64 (s.seq + 1) } := by
  rcases gen_cases now m n s with ⟨a, b, h⟩ | ⟨a, b, h⟩ | ⟨a, b, h⟩ | ⟨a, b, h⟩
  · omega
  · rw [h]
  · rw [h]
  · exact absurd hsame b

/-- Calls that stay in the recorded second, any number of them: the
sequence counter is the int64 sum. -/
theorem finalState_same_second_wrap (m n now : Int) (k : Nat) :
    ∀ s : State, s.last_ts = now → isInt64 s.seq →
      finalState m n s (List.replicate k now) =
        { last_ts := now, seq := wrap64 (s.seq + k) } := by
  induction k with
  | zero =>
    intro s h1 h2
    cases s
    simp_all [finalState, wrap64_of_isInt64]
  | succ k ih =>
    intro s h1 _
    rw [List.replicate_succ, finalState, gen_same_st now m n s h1,
      ih _ rfl (by unfold isInt64 wrap64; dsimp only; omega)]
    congr 1
    unfold wrap64
    push_cast
    omega

/-- From the initial state, call number k + 1 (counted from 0) of a run at
one clock reading other than -1 is gen in the state (now, k as an int64). -/
theorem runGen_same_second_any (m n now : Int) (N k : Nat) (hnow : now ≠ -1)
    (hkN : k + 1 < N) :
    (runGen m n State.init (List.replicate N now))[k + 1]? =
      some (gen now m n { last_ts := now, seq := wrap64 k }) := by
  rw [runGen_getElem?, List.getElem?_replicate_of_lt hkN, List.take_replicate,
    Nat.min_eq_left (Nat.le_of_lt hkN)]
  simp only [Option.map_some']
  have h0 := gen_fresh now m n State.init (Or.inl ⟨rfl, hnow⟩)
  rw [List.replicate_succ, finalState, h0,
    finalState_same_second_wrap m n now k _ rfl (by show isInt64 0; decide)]
  simp

/-- A run that starts a new second and stays in it: after k + 1 calls the
state is (now, k as an int64). -/
theorem finalState_new_second_wrap (m n now : Int) (s : State) (k : Nat)
    (hnew : (s.last_ts = -1 ∧ now ≠ -1) ∨ s.last_ts < now) :
    finalState m n s (List.replicate (k + 1) now) = { last_ts := now, seq := wrap64 k } := by
  have h0 := gen_fresh now m n s hnew
  rw [List.replicate_succ, finalState, h0,
    finalState_same_second_wrap m n now k _ rfl (by show isInt64 0; decide)]
  simp

/-- Call number k + 1 (counted from 0) of a run that starts a new second
and stays in it is gen in the state (now, k as an int64). -/
theorem runGen_new_second_any (m n now : Int) (s : State) (N k : Nat)
    (hnew : (s.last_ts = -1 ∧ now ≠ -1) ∨ s.last_ts < now) (hkN : k + 1 < N) :
    (runGen m n s (List.replicate N now))[k + 1]? =
      some (gen now m n { last_ts := now, seq := wrap64 k }) := by
  rw [runGen_getElem?, List.getElem?_replicate_of_lt hkN, List.take_replicate,
    Nat.min_eq_left (Nat.le_of_lt hkN)]
  simp only [Option.map_some']
  rw [finalState_new_second_wrap m n now s k hnew]

/-- Call number k of a run that starts a new second and stays in it
succeeds with sequence counter k, as long as k is below MAX_SEQ. -/
theorem runGen_new_second (m n now : Int) (s : State) (N k : Nat)
    (hnew : (s.last_ts = -1 ∧ now ≠ -1) ∨ s.last_ts < now) (hkN : k < N)
    (hk : (k : Int) < MAX_SEQ) :
    (runGen m n s (List.replicate N now))[k]? =
      some { id := pack (now - epoch) m n k, err := none, st := { last_ts := now, seq := k } } := by
  cases k with
  | zero =>
    rw [runGen_getElem?, List.getElem?_replicate_of_lt hkN]
    simp only [Option.map_some', List.take_zero, finalState]
    rw [gen_fresh now m n s hnew]
    simp
  | succ j =>
    have hj : (j : Int) + 1 < MAX_SEQ := by push_cast at hk; exact hk
    have hw : wrap64 (j : Int) = j := by
      unfold MAX_SEQ at hj
      exact wrap64_of_isInt64 _ ⟨by omega, by omega⟩
    have h0 : -(2 ^ 63) ≤ (j : Int) + 1 := by omega
    rw [runGen_new_second_any m n now s N j hnew hkN, hw,
      gen_same_ok now m n { last_ts := now, seq := (j : Int) } rfl h0 hj]
    simp

theorem wrap64_isInt64 (x : Int) : isInt64 (wrap64 x) := by
  unfold isInt64 wrap64
  omega

/-- The state a sequence-exhausted failure leaves: the observed second and a
counter at or above MAX_SEQ. -/
theorem gen_exhausted_st (now m n : Int) (s : State)
    (hfail : (gen now m n s).err = some .waitOneSecond) :
    (gen now m n s).st.last_ts = now ∧ MAX_SEQ ≤ (gen now m n s).st.seq ∧
      isInt64 (gen now m n s).st.seq := by
  rcases gen_cases now m n s with ⟨_, _, h⟩ | ⟨_, b, h⟩ | ⟨_, _, h⟩ | ⟨_, _, h⟩
  · rw [h] at hfail; exact absurd hfail (by simp)
  · rw [h]; exact ⟨rfl, b, wrap64_isInt64 _⟩
  · rw [h] at hfail; exact absurd hfail (by simp)
  · rw [h] at hfail; exact absurd hfail (by simp)

theorem runGen_append (m n : Int) (l1 l2 : List Int) :
    ∀ s : State, runGen m n s (l1 ++ l2) =
      runGen m n s l1 ++ runGen m n (finalState m n s l1) l2 := by
  induction l1 with
  | nil => intro s; rfl
  | cons now rest ih => intro s; simp [runGen, finalState, ih]

/-! ## Counting the successful calls of a second -/

theorem successesAt_cons (t : Int) (o : GenOut) (outs : List GenOut) :
    successesAt t (o :: outs) =
      successesAt t outs + (if o.err = none ∧ o.st.last_ts = t then 1 else 0) := by
  simp [successesAt, List.countP_cons]

theorem successesAt_append (t : Int) (l1 l2 : List GenOut) :
    successesAt t (l1 ++ l2) = successesAt t l1 + successesAt t l2 := by
  simp [successesAt, List.countP_append]

theorem successesAt_pos (t : Int) (outs : List GenOut) (i : Nat) (o : GenOut)
    (hget : outs[i]? = some o) (hok : o.err = none) (ht : o.st.last_ts = t) :
    0 < successesAt t outs := by
  obtain ⟨hi, rfl⟩ := List.getElem?_eq_some.mp hget
  unfold successesAt
  rw [List.countP_pos_iff]
  exact ⟨_, List.getElem_mem hi, by simp [hok, ht]⟩

/-- Calls that stay in the recorded second and keep the counter below
MAX_SEQ all succeed. -/
theorem successesAt_same_second (m n now : Int) (k : Nat) :
    ∀ s : State, s.last_ts = now → 0 ≤ s.seq → s.seq + k < MAX_SEQ →
      successesAt now (runGen m n s (List.replicate k now)) = k := by
  induction k with
  | zero => intro s _ _ _; rfl
  | succ k ih =>
    intro s h1 h2 h3
    have hstep := gen_same_ok now m n s h1 (by omega) (by push_cast at h3; omega)
    rw [List.replicate_succ]
    simp only [runGen]
    rw [successesAt_cons, hstep]
    dsimp only
    rw [ih _ rfl (by show 0 ≤ s.seq + 1; omega)
      (by push_cast at h3; show s.seq + 1 + (k : Int) < MAX_SEQ; omega)]
    simp

/-- In a run without the clock reading -1 and short of the int64 limit of
the counter, the successful calls that observe t are bounded by what the
starting state leaves of the second t. -/
theorem successesAt_le_budget (m n t : Int) (nows : List Int) :
    ∀ s : State, 0 ≤ s.seq → s.seq + (nows.length : Int) < 2 ^ 63 →
      (∀ now ∈ nows, now ≠ -1) →
      ((successesAt t (runGen m n s nows) : Nat) : Int) ≤
        (if s.last_ts = -1 then 262143
         else if s.last_ts = t then (if s.seq < 262142 then 262142 - s.seq else 0)
         else if s.last_ts < t then 262143 else 0) := by
  induction nows with
  | nil =>
    intro s _ _ _
    simp only [runGen, successesAt, List.countP_nil]
    split_ifs <;> omega
  | cons now rest ih =>
    intro s hseq hlen hne
    have hnow := hne now (List.mem_cons_self _ _)
    have hrest : ∀ x ∈ rest, x ≠ -1 := fun x hx => hne x (List.mem_cons_of_mem _ hx)
    rw [List.length_cons] at hlen
    push_cast at hlen
    have hw : wrap64 (s.seq + 1) = s.seq + 1 := wrap64_of_isInt64 _ ⟨by omega, by omega⟩
    simp only [runGen]
    rw [successesAt_cons]
    rcases gen_cases now m n s with ⟨a, b, h⟩ | ⟨a, b, h⟩ | ⟨a, b, h⟩ | ⟨a, b, h⟩
    · have hi := ih s hseq (by omega) hrest
      rw [h]
      dsimp only
      simp only [reduceCtorEq, false_and, if_false, Nat.add_zero]
      exact hi
    · have hi := ih { last_ts := now, seq := s.seq + 1 } (by show 0 ≤ s.seq + 1; omega)
        (by show s.seq + 1 + (rest.length : Int) < 2 ^ 63; omega) hrest
      rw [h, hw]
      rw [hw] at b
      unfold MAX_SEQ at b
      dsimp only at hi ⊢
      simp only [reduceCtorEq, false_and, if_false, Nat.add_zero]
      split_ifs at hi ⊢ <;> omega
    · have hi := ih { last_ts := now, seq := s.seq + 1 } (by show 0 ≤ s.seq + 1; omega)
        (by show s.seq + 1 + (rest.length : Int) < 2 ^ 63; omega) hrest
      rw [h, hw]
      rw [hw] at b
      unfold MAX_SEQ at b
      dsimp only at hi ⊢
      simp only [true_and]
      push_cast
      split_ifs at hi ⊢ <;> omega
    · have hi := ih { last_ts := now, seq := 0 } (by show (0 : Int) ≤ 0; omega)
        (by show (0 : Int) + (rest.length : Int) < 2 ^ 63; omega) hrest
      rw [h]
      dsimp only at hi ⊢
      simp only [true_and]
      push_cast
      split_ifs at hi ⊢ <;> omega

/-- Call number k of a run that stays in the recorded second is gen in the
state whose counter is the int64 sum of the starting counter and k. -/
theorem runGen_same_second_get (m n now : Int) (s : State) (N k : Nat)
    (hsame : s.last_ts = now) (hseq : isInt64 s.seq) (hkN : k < N) :
    (runGen m n s (List.replicate N now))[k]? =
      some (gen now m n { last_ts := now, seq := wrap64 (s.seq + k) }) := by
  rw [runGen_getElem?, List.getElem?_replicate_of_lt hkN, List.take_replicate,
    Nat.min_eq_left (Nat.le_of_lt hkN)]
  simp only [Option.map_some']
  rw [finalState_same_second_wrap m n now k s hsame hseq]

/-- The first 262143 calls of a run that starts a new second and stays in
it all succeed. -/
theorem successesAt_new_second (m n now : Int) (s : State) (k : Nat)
    (hnew : (s.last_ts = -1 ∧ now ≠ -1) ∨ s.last_ts < now) (hk : k ≤ 262143) :
    successesAt now (runGen m n s (List.replicate k now)) = k := by
  cases k with
  | zero => rfl
  | succ j =>
    rw [List.replicate_succ]
    simp only [runGen]
    rw [successesAt_cons, gen_fresh now m n s hnew]
    dsimp only
    rw [successesAt_same_second m n now j { last_ts := now, seq := 0 } rfl
      (by show (0 : Int) ≤ 0; omega)
      (by unfold MAX_SEQ; show (0 : Int) + (j : Int) < 2 ^ 18 - 1; omega)]
    simp

/-! ## Runs with clock readings inside the 29-bit timestamp range -/

/-- One call at a clock reading in the range of the timestamp field, in a
state whose sequence counter is far from the int64 limit: the state after
the call is of the same kind, it is not below the state before in the
order by (second, sequence), and it is above when the call succeeds. -/
theorem gen_step (now m n : Int) (s : State) (k : Nat)
    (hts : s.last_ts = -1 ∨ (epoch ≤ s.last_ts ∧ s.last_ts < epoch + 2 ^ 29))
    (hseq : 0 ≤ s.seq) (hk : s.seq + ((k + 1 : Nat) : Int) < 2 ^ 63)
    (hnow : epoch ≤ now ∧ now < epoch + 2 ^ 29) :
    ((gen now m n s).st.last_ts = -1 ∨
        (epoch ≤ (gen now m n s).st.last_ts ∧ (gen now m n s).st.last_ts < epoch + 2 ^ 29)) ∧
      0 ≤ (gen now m n s).st.seq ∧
      (gen now m n s).st.seq + (k : Int) < 2 ^ 63 ∧
      (s.last_ts < (gen now m n s).st.last_ts ∨
        (s.last_ts = (gen now m n s).st.last_ts ∧ s.seq ≤ (gen now m n s).st.seq)) ∧
      ((gen now m n s).err = none →
        (s.last_ts < (gen now m n s).st.last_ts ∨
          (s.last_ts = (gen now m n s).st.last_ts ∧ s.seq < (gen now m n s).st.seq))) := by
  have hw : wrap64 (s.seq + 1) = s.seq + 1 :=
    wrap64_of_isInt64 _ ⟨by omega, by push_cast at hk; omega⟩
  push_cast at hk
  unfold epoch at *
  rcases gen_cases now m n s with ⟨a, b, h⟩ | ⟨a, b, h⟩ | ⟨a, b, h⟩ | ⟨a, b, h⟩
  · rw [h]
    dsimp only
    refine ⟨hts, hseq, by omega, by omega, fun h => absurd h (by simp)⟩
  · rw [h, hw]
    dsimp only
    refine ⟨by omega, by omega, by omega, by omega, fun h => absurd h (by simp)⟩
  · rw [h, hw]
    dsimp only
    refine ⟨by omega, by omega, by omega, by omega, fun _ => by omega⟩
  · rw [h]
    dsimp only
    refine ⟨by omega, by omega, by omega, by omega, fun _ => by omega⟩

/-- Every later call of such a run leaves a state not below the starting
state, and above it when the call succeeds; a successful call records a
second in the range and a sequence counter that is not negative. -/
theorem runGen_later (m n : Int) (nows : List Int) :
    ∀ s : State,
      (s.last_ts = -1 ∨ (epoch ≤ s.last_ts ∧ s.last_ts < epoch + 2 ^ 29)) →
      0 ≤ s.seq → s.seq + (nows.length : Int) < 2 ^ 63 →
      (∀ now ∈ nows, epoch ≤ now ∧ now < epoch + 2 ^ 29) →
      ∀ o ∈ runGen m n s nows,
        (s.last_ts < o.st.last_ts ∨ (s.last_ts = o.st.last_ts ∧ s.seq ≤ o.st.seq)) ∧
        (o.err = none →
          (s.last_ts < o.st.last_ts ∨ (s.last_ts = o.st.last_ts ∧ s.seq < o.st.seq)) ∧
          (epoch ≤ o.st.last_ts ∧ o.st.last_ts < epoch + 2 ^ 29) ∧
          0 ≤ o.st.seq ∧
          o.id = pack (o.st.last_ts - epoch) m n o.st.seq) := by
  induction nows with
  | nil => intro s _ _ _ _ o ho; simp [runGen] at ho
  | cons now rest ih =>
    intro s hts hseq hlen hr o ho
    have hnow := hr now (List.mem_cons_self _ _)
    have hrest : ∀ x ∈ rest, epoch ≤ x ∧ x < epoch + 2 ^ 29 :=
      fun x hx => hr x (List.mem_cons_of_mem _ hx)
    rw [List.length_cons] at hlen
    obtain ⟨i1, i2, i3, hle, hlt⟩ := gen_step now m n s rest.length hts hseq hlen hnow
    simp only [runGen, List.mem_cons] at ho
    rcases ho with rfl | ho
    · refine ⟨hle, fun hok => ⟨hlt hok, ?_, i2, ?_⟩⟩
      · rw [(gen_ok_shape now m n s hok).1]; exact hnow
      · have hs := gen_ok_shape now m n s hok
        rw [hs.1]; exact hs.2
    · obtain ⟨jle, jok⟩ := ih _ i1 i2 i3 hrest o ho
      refine ⟨by omega, fun hok => ?_⟩
      obtain ⟨jlt, jr, js, jid⟩ := jok hok
      exact ⟨by omega, jr, js, jid⟩

/-- In a run from the initial state with fewer than 2^63 clock readings,
all in the range of the timestamp field, any two successful calls record
(second, sequence) pairs in strictly increasing order, and the ID of each
packs its pair. -/
theorem runGen_pairwise (m n : Int) (nows : List Int)
    (hlen : (nows.length : Int) < 2 ^ 63)
    (hr : ∀ now ∈ nows, epoch ≤ now ∧ now < epoch + 2 ^ 29) :
    List.Pairwise
      (fun a b : GenOut => a.err = none → b.err = none →
        (a.st.last_ts < b.st.last_ts ∨ (a.st.last_ts = b.st.last_ts ∧ a.st.seq < b.st.seq)) ∧
        (epoch ≤ a.st.last_ts ∧ a.st.last_ts < epoch + 2 ^ 29) ∧
        (epoch ≤ b.st.last_ts ∧ b.st.last_ts < epoch + 2 ^ 29) ∧
        0 ≤ a.st.seq ∧ 0 ≤ b.st.seq ∧
        a.id = pack (a.st.last_ts - epoch) m n a.st.seq ∧
        b.id = pack (b.st.last_ts - epoch) m n b.st.seq)
      (runGen m n State.init nows) := by
  have key : ∀ (l : List Int) (s : State),
      (s.last_ts = -1 ∨ (epoch ≤ s.last_ts ∧ s.last_ts < epoch + 2 ^ 29)) →
      0 ≤ s.seq → s.seq + (l.length : Int) < 2 ^ 63 →
      (∀ now ∈ l, epoch ≤ now ∧ now < epoch + 2 ^ 29) →
      List.Pairwise
        (fun a b : GenOut => a.err = none → b.err = none →
          (a.st.last_ts < b.st.last_ts ∨ (a.st.last_ts = b.st.last_ts ∧ a.st.seq < b.st.seq)) ∧
          (epoch ≤ a.st.last_ts ∧ a.st.last_ts < epoch + 2 ^ 29) ∧
          (epoch ≤ b.st.last_ts ∧ b.st.last_ts < epoch + 2 ^ 29) ∧
          0 ≤ a.st.seq ∧ 0 ≤ b.st.seq ∧
          a.id = pack (a.st.last_ts - epoch) m n a.st.seq ∧
          b.id = pack (b.st.last_ts - epoch) m n b.st.seq)
        (runGen m n s l) := by
    intro l
    induction l with
    | nil => intro s _ _ _ _; simp [runGen]
    | cons now rest ih =>
      intro s hts hseq hl hrr
      have hnow := hrr now (List.mem_cons_self _ _)
      have hrest : ∀ x ∈ rest, epoch ≤ x ∧ x < epoch + 2 ^ 29 :=
        fun x hx => hrr x (List.mem_cons_of_mem _ hx)
      rw [List.length_cons] at hl
      obtain ⟨i1, i2, i3, _, _⟩ := gen_step now m n s rest.length hts hseq hl hnow
      simp only [runGen, List.pairwise_cons]
      refine ⟨fun b hb ha hbok => ?_, ih _ i1 i2 i3 hrest⟩
      obtain ⟨_, jok⟩ := runGen_later m n rest _ i1 i2 i3 hrest b hb
      obtain ⟨jlt, jr, js, jid⟩ := jok hbok
      have hs := gen_ok_shape now m n s ha
      refine ⟨jlt, ?_, jr, i2, js, ?_, jid⟩
      · rw [hs.1]; exact hnow
      · rw [hs.1]; exact hs.2
  exact key nows State.init (Or.inl rfl) (by decide) (by simpa [State.init] using hlen) hr

/-! ## The encoding -/

/-- C2. Round trip of the encoding: for a timestamp offset in 0..2^29-1, a
machine id and a node id in 0..63 and a sequence in 0..131071, the fields
read off the packed ID by the bit layout (bits 29-57, 23-28, 17-22, 0-16)
are the four values that were packed. -/
theorem pack_decode_roundtrip (ts m n s : Int)
    (hts : 0 ≤ ts ∧ ts < 536870912) (hm : 0 ≤ m ∧ m < 64) (hn : 0 ≤ n ∧ n < 64)
    (hs : 0 ≤ s ∧ s < 131072) :
    tsField (pack ts m n s) = ts ∧ machineField (pack ts m n s) = m ∧
      nodeField (pack ts m n s) = n ∧ seqField (pack ts m n s) = s := by
  rw [tsField_pack, machineField_pack, nodeField_pack, seqField_pack]
  omega

theorem pack_decode_roundtrip_witness :
    tsField (pack 536870911 63 63 131071) = 536870911 ∧
      machineField (pack 536870911 63 63 131071) = 63 ∧
      nodeField (pack 536870911 63 63 131071) = 63 ∧
      seqField (pack 536870911 63 63 131071) = 131071 :=
  pack_decode_roundtrip 536870911 63 63 131071 (by decide) (by decide) (by decide) (by decide)

/-- C3. Cross-process uniqueness: two identifier pairs that both lie in
0..63 x 0..63 and differ give different IDs, whatever the two clock
readings and the two sequence counter values are. -/
theorem pack_ne_of_ids_ne (now1 now2 q1 q2 m1 n1 m2 n2 : Int)
    (hm1 : 0 ≤ m1 ∧ m1 < 64) (hn1 : 0 ≤ n1 ∧ n1 < 64)
    (hm2 : 0 ≤ m2 ∧ m2 < 64) (hn2 : 0 ≤ n2 ∧ n2 < 64)
    (hne : ¬(m1 = m2 ∧ n1 = n2)) :
    pack (wrap64 (now1 - epoch)) m1 n1 q1 ≠ pack (wrap64 (now2 - epoch)) m2 n2 q2 := by
  intro h
  have hm := congrArg machineField h
  have hn := congrArg nodeField h
  rw [machineField_pack, machineField_pack] at hm
  rw [nodeField_pack, nodeField_pack] at hn
  omega

theorem pack_ne_of_ids_ne_witness :
    pack (wrap64 (1451606400 - epoch)) 3 5 0 ≠ pack (wrap64 (1451606400 - epoch)) 3 6 0 :=
  pack_ne_of_ids_ne 1451606400 1451606400 0 0 3 5 3 6 (by decide) (by decide) (by decide)
    (by decide) (by decide)

/-! ## The startup check against the stored watermark -/

/-- C6, as the code has it. With the watermark T stored as decimal text
under the key of the machine, check_last_ts returns an error exactly when
T is not 0 and now < T. A stored 0 counts as no watermark: every clock
reading is accepted then. In the other cases the call returns 1 without an
error; it never panics. -/
theorem check_last_ts_stored (now m T : Int) (kv : String → KVGet) (hT : isInt64 T)
    (hkv : kv (get_last_ts_key m) = .present (FormatInt T)) :
    ((∃ r e, check_last_ts now m kv = .ret (r, some e)) ↔ (T ≠ 0 ∧ now < T)) ∧
      ((T ≠ 0 ∧ now < T) → check_last_ts now m kv = .ret (-1, some (.badDatetime now T))) ∧
      (¬(T ≠ 0 ∧ now < T) → check_last_ts now m kv = .ret (1, none)) := by
  have hval : check_last_ts now m kv =
      if T = 0 then .ret (1, none)
      else if now < T then .ret (-1, some (.badDatetime now T)) else .ret (1, none) := by
    simp only [check_last_ts, hkv, ParseInt_FormatInt T hT]
  by_cases h0 : T = 0
  · rw [hval, if_pos h0]
    refine ⟨⟨?_, fun h => absurd h0 h.1⟩, fun h => absurd h0 h.1, fun _ => rfl⟩
    rintro ⟨r, e, h⟩
    simp at h
  · by_cases h1 : now < T
    · rw [hval, if_neg h0, if_pos h1]
      exact ⟨⟨fun _ => ⟨h0, h1⟩, fun _ => ⟨-1, _, rfl⟩⟩, fun _ => rfl, fun h => absurd ⟨h0, h1⟩ h⟩
    · rw [hval, if_neg h0, if_neg h1]
      refine ⟨⟨?_, fun h => absurd h.2 h1⟩, fun h => absurd h.2 h1, fun _ => rfl⟩
      rintro ⟨r, e, h⟩
      simp at h

theorem check_last_ts_stored_witness :
    ((∃ r e, check_last_ts 1451606395 7 (fun _ => .present (FormatInt 1451606400))
        = .ret (r, some e)) ↔ ((1451606400 : Int) ≠ 0 ∧ (1451606395 : Int) < 1451606400)) ∧
      (((1451606400 : Int) ≠ 0 ∧ (1451606395 : Int) < 1451606400) →
        check_last_ts 1451606395 7 (fun _ => .present (FormatInt 1451606400))
          = .ret (-1, some (.badDatetime 1451606395 1451606400))) ∧
      (¬((1451606400 : Int) ≠ 0 ∧ (1451606395 : Int) < 1451606400) →
        check_last_ts 1451606395 7 (fun _ => .present (FormatInt 1451606400))
          = .ret (1, none)) :=
  check_last_ts_stored 1451606395 7 1451606400 (fun _ => .present (FormatInt 1451606400))
    (by decide) rfl

/-- C6 fails as stated: with the watermark 0 stored and the clock reading
-5, which is earlier than 0, check_last_ts returns 1 and no error. -/
theorem check_last_ts_zero_watermark :
    (-5 : Int) < 0 ∧
      check_last_ts (-5) 7 (fun _ => .present (FormatInt 0)) = .ret (1, none) := by
  decide

/-- C7. Missing watermark is not an error: when the store holds no pair
under the key of the machine, check_last_ts returns 1 and no error, for
every clock reading. -/
theorem check_last_ts_absent (now m : Int) (kv : String → KVGet)
    (hkv : kv (get_last_ts_key m) = .absent) :
    check_last_ts now m kv = .ret (1, none) := by
  simp only [check_last_ts, hkv]

theorem check_last_ts_absent_witness :
    check_last_ts 1451606400 7 (fun _ => .absent) = .ret (1, none) :=
  check_last_ts_absent 1451606400 7 (fun _ => .absent) rfl

/-! ## Single calls of gen -/

/-- C8, as the code has it. In a state whose recorded second L is not -1
(the value that stands for "no second recorded"), a clock reading now < L
with L - now below 2^63 makes gen fail: it returns -1 and the error that
reports a wait of exactly L - now seconds, a positive number. -/
theorem gen_clock_regressed (now m n : Int) (s : State) (hset : s.last_ts ≠ -1)
    (hlt : now < s.last_ts) (hfit : s.last_ts - now < 2 ^ 63) :
    (gen now m n s).id = -1 ∧
      (gen now m n s).err = some (.waitFor (s.last_ts - now)) ∧
      0 < s.last_ts - now := by
  have hw : wrap64 (s.last_ts - now) = s.last_ts - now :=
    wrap64_of_isInt64 _ ⟨by omega, hfit⟩
  rw [gen_regressed now m n s hset hlt, hw]
  exact ⟨rfl, rfl, by omega⟩

theorem gen_clock_regressed_witness :
    (gen 1451606400 3 5 { last_ts := 1451606405, seq := 2 }).id = -1 ∧
      (gen 1451606400 3 5 { last_ts := 1451606405, seq := 2 }).err
        = some (.waitFor ((1451606405 : Int) - 1451606400)) ∧
      0 < (1451606405 : Int) - 1451606400 :=
  gen_clock_regressed 1451606400 3 5 { last_ts := 1451606405, seq := 2 } (by decide)
    (by decide) (by decide)

/-- C8 fails as stated, twice. A successful call at the clock reading -1
leaves the recorded second -1, and the next call, at the earlier reading
-2, succeeds. A successful call at 2^62 followed by a call at -2^62 fails,
but the wait it reports is -2^63 (the int64 difference wraps), which is
neither L - now nor positive. -/
theorem gen_clock_regressed_counterexample :
    ((gen (-1) 0 0 State.init).err = none ∧
      (gen (-1) 0 0 State.init).st.last_ts = -1 ∧
      (-2 : Int) < -1 ∧
      (gen (-2) 0 0 (gen (-1) 0 0 State.init).st).err = none) ∧
    ((gen 4611686018427387904 0 0 State.init).err = none ∧
      (gen 4611686018427387904 0 0 State.init).st.last_ts = 4611686018427387904 ∧
      (-4611686018427387904 : Int) < 4611686018427387904 ∧
      (gen (-4611686018427387904) 0 0 (gen 4611686018427387904 0 0 State.init).st).err
        = some (.waitFor (-9223372036854775808))) := by
  decide

/-- C9, as the code has it. gen rejects no identifier: whether a call
succeeds does not depend on machine_id and node_id, and a returned ID
carries machine_id mod 64 in its machine field and node_id mod 64 in its
node field, which is the identifier itself exactly when it lies in 0..63. -/
theorem gen_ids_masked (now m n : Int) (s : State) (hok : (gen now m n s).err = none) :
    (∀ m2 n2 : Int, (gen now m2 n2 s).err = none) ∧
      machineField (gen now m n s).id = m % 64 ∧
      nodeField (gen now m n s).id = n % 64 ∧
      (machineField (gen now m n s).id = m ↔ 0 ≤ m ∧ m < 64) ∧
      (nodeField (gen now m n s).id = n ↔ 0 ≤ n ∧ n < 64) := by
  have hid := (gen_ok_shape now m n s hok).2
  have hm : machineField (gen now m n s).id = m % 64 := by rw [hid, machineField_pack]
  have hn : nodeField (gen now m n s).id = n % 64 := by rw [hid, nodeField_pack]
  refine ⟨fun m2 n2 => ?_, hm, hn, ?_, ?_⟩
  · rw [(gen_err_st_ids now m2 n2 m n s).1]
    exact hok
  · rw [hm]; omega
  · rw [hn]; omega

theorem gen_ids_masked_witness :
    (∀ m2 n2 : Int, (gen 1451606400 m2 n2 State.init).err = none) ∧
      machineField (gen 1451606400 64 100 State.init).id = 64 % 64 ∧
      nodeField (gen 1451606400 64 100 State.init).id = 100 % 64 ∧
      (machineField (gen 1451606400 64 100 State.init).id = 64 ↔ (0 : Int) ≤ 64 ∧ (64 : Int) < 64) ∧
      (nodeField (gen 1451606400 64 100 State.init).id = 100 ↔
        (0 : Int) ≤ 100 ∧ (100 : Int) < 64) :=
  gen_ids_masked 1451606400 64 100 State.init (by decide)

/-- C9 fails as stated: the configuration parsed from the flags
-machine 64 -node 100 is accepted, the incr command on it returns an ID
without error, and that ID carries machine field 0 and node field 36. -/
theorem gen_out_of_range_ids_counterexample :
    (Config.parse none (some 64) (some 100) none).machine_id = 64 ∧
      (Config.parse none (some 64) (some 100) none).node_id = 100 ∧
      (incr (Config.parse none (some 64) (some 100) none) 1451606400 State.init).err = none ∧
      machineField (incr (Config.parse none (some 64) (some 100) none) 1451606400 State.init).id
        = 0 ∧
      nodeField (incr (Config.parse none (some 64) (some 100) none) 1451606400 State.init).id
        = 36 := by
  decide

/-- C10, as the code has it. When no second is recorded and the clock
reading is not -1, or when the clock reading is later than the recorded
second, gen succeeds, the new state is (last_ts = now, seq = 0), and the
returned ID is the packing of (now - 1451606400, machine_id, node_id, 0). -/
theorem gen_new_second (now m n : Int) (s : State)
    (h : (s.last_ts = -1 ∧ now ≠ -1) ∨ s.last_ts < now) :
    gen now m n s =
      { id := pack (now - 1451606400) m n 0, err := none,
        st := { last_ts := now, seq := 0 } } :=
  gen_fresh now m n s h

theorem gen_new_second_witness :
    gen 1451606400 3 5 State.init =
      { id := pack (1451606400 - 1451606400) 3 5 0, err := none,
        st := { last_ts := 1451606400, seq := 0 } } :=
  gen_new_second 1451606400 3 5 State.init (Or.inl (by decide))

/-- C10 fails as stated: in the initial state the clock reading -1 is
taken for the recorded second, so the call counts as a second call within
that second: the state after it has seq = 1, not 0, and the ID is not the
packing with sequence 0. -/
theorem gen_new_second_counterexample :
    (gen (-1) 3 5 State.init).err = none ∧
      (gen (-1) 3 5 State.init).st = { last_ts := -1, seq := 1 } ∧
      (gen (-1) 3 5 State.init).id ≠ pack (-1 - 1451606400) 3 5 0 := by
  decide

/-! ## Runs of gen from the initial state -/

/-- C1, as the code has it. For fixed identifiers and a run from the initial
state over fewer than 2^63 clock readings, all within the range of the
timestamp field (1451606400 <= now < 1451606400 + 2^29), two calls that both
succeed return different IDs, provided the later call leaves a sequence
counter of at most 131071. -/
theorem runGen_ids_unique (m n : Int) (nows : List Int)
    (hlen : (nows.length : Int) < 2 ^ 63)
    (hr : ∀ now ∈ nows, 1451606400 ≤ now ∧ now < 1451606400 + 536870912)
    (i j : Nat) (a b : GenOut) (hij : i < j)
    (ha : (runGen m n State.init nows)[i]? = some a)
    (hb : (runGen m n State.init nows)[j]? = some b)
    (hao : a.err = none) (hbo : b.err = none) (hseq : b.st.seq < 131072) :
    a.id ≠ b.id := by
  obtain ⟨hi, rfl⟩ := List.getElem?_eq_some.mp ha
  obtain ⟨hj, rfl⟩ := List.getElem?_eq_some.mp hb
  have hp := List.pairwise_iff_getElem.mp (runGen_pairwise m n nows hlen hr) i j hi hj hij
  obtain ⟨hlt, har, hbr, has, hbs, haid, hbid⟩ := hp hao hbo
  intro heq
  rw [haid, hbid] at heq
  have h1 := congrArg tsField heq
  have h2 := congrArg seqField heq
  rw [tsField_pack, tsField_pack] at h1
  rw [seqField_pack, seqField_pack] at h2
  unfold epoch at *
  omega

theorem runGen_ids_unique_witness :
    (gen 1451606400 3 5 State.init).id ≠
      (gen 1451606400 3 5 (gen 1451606400 3 5 State.init).st).id :=
  runGen_ids_unique 3 5 [1451606400, 1451606400] (by decide) (by decide) 0 1
    (gen 1451606400 3 5 State.init)
    (gen 1451606400 3 5 (gen 1451606400 3 5 State.init).st)
    (by decide) rfl rfl (by decide) (by decide) (by decide)

/-- C1 fails as stated, twice. Two clock readings 2^29 seconds apart give
the same timestamp field: the two calls of the run at the readings
1451606400 and 1988477312 both succeed and return the same ID. And in a run
of 131073 calls at one clock reading the first call and the last both
succeed and return the same ID (sequence counters 0 and 131072). And the
int64 sequence counter itself wraps: in a run of 2^64 + 1 calls at one
clock reading the last call succeeds with sequence counter 0 and returns
the ID of the first. -/
theorem runGen_ids_unique_counterexample :
    (∃ a b : GenOut,
      (runGen 3 5 State.init [1451606400, 1988477312])[0]? = some a ∧
      (runGen 3 5 State.init [1451606400, 1988477312])[1]? = some b ∧
      a.err = none ∧ b.err = none ∧ a.id = b.id) ∧
    (∃ a b : GenOut,
      (runGen 3 5 State.init (List.replicate 131073 1451606400))[0]? = some a ∧
      (runGen 3 5 State.init (List.replicate 131073 1451606400))[131072]? = some b ∧
      a.err = none ∧ b.err = none ∧ a.id = b.id) ∧
    (∃ a b : GenOut,
      (runGen 3 5 State.init (List.replicate 18446744073709551617 1451606400))[0]? = some a ∧
      (runGen 3 5 State.init
        (List.replicate 18446744073709551617 1451606400))[18446744073709551616]? = some b ∧
      a.err = none ∧ b.err = none ∧ b.st.seq = 0 ∧ a.id = b.id) := by
  refine ⟨⟨_, _, rfl, rfl, by decide, by decide, by decide⟩, ?_, ?_⟩
  · exact ⟨_, _,
      runGen_same_second 3 5 1451606400 131073 0 (by decide) (by decide) (by decide),
      runGen_same_second 3 5 1451606400 131073 131072 (by decide) (by decide) (by decide),
      rfl, rfl, by decide⟩
  · exact ⟨_, _,
      runGen_same_second 3 5 1451606400 18446744073709551617 0 (by decide) (by decide)
        (by decide),
      runGen_same_second_any 3 5 1451606400 18446744073709551617 18446744073709551615
        (by decide) (by decide),
      rfl, by decide, by decide, by decide⟩

/-- C4, as the code has it. For a run from the initial state over fewer
than 2^63 clock readings, all within the range of the timestamp field, and
two calls that both succeed, the later one leaving a sequence counter of at
most 131071: the (timestamp field, sequence field) pair of the later ID is
lexicographically greater than or equal to that of the earlier ID. -/
theorem runGen_fields_monotone (m n : Int) (nows : List Int)
    (hlen : (nows.length : Int) < 2 ^ 63)
    (hr : ∀ now ∈ nows, 1451606400 ≤ now ∧ now < 1451606400 + 536870912)
    (i j : Nat) (a b : GenOut) (hij : i < j)
    (ha : (runGen m n State.init nows)[i]? = some a)
    (hb : (runGen m n State.init nows)[j]? = some b)
    (hao : a.err = none) (hbo : b.err = none) (hseq : b.st.seq < 131072) :
    tsField a.id < tsField b.id ∨
      (tsField a.id = tsField b.id ∧ seqField a.id ≤ seqField b.id) := by
  obtain ⟨hi, rfl⟩ := List.getElem?_eq_some.mp ha
  obtain ⟨hj, rfl⟩ := List.getElem?_eq_some.mp hb
  have hp := List.pairwise_iff_getElem.mp (runGen_pairwise m n nows hlen hr) i j hi hj hij
  obtain ⟨hlt, har, hbr, has, hbs, haid, hbid⟩ := hp hao hbo
  rw [haid, hbid, tsField_pack, tsField_pack, seqField_pack, seqField_pack]
  unfold epoch at *
  omega

theorem runGen_fields_monotone_witness :
    tsField (gen 1451606400 3 5 State.init).id <
        tsField (gen 1451606401 3 5 (gen 1451606400 3 5 State.init).st).id ∨
      (tsField (gen 1451606400 3 5 State.init).id =
          tsField (gen 1451606401 3 5 (gen 1451606400 3 5 State.init).st).id ∧
        seqField (gen 1451606400 3 5 State.init).id ≤
          seqField (gen 1451606401 3 5 (gen 1451606400 3 5 State.init).st).id) :=
  runGen_fields_monotone 3 5 [1451606400, 1451606401] (by decide) (by decide) 0 1
    (gen 1451606400 3 5 State.init)
    (gen 1451606401 3 5 (gen 1451606400 3 5 State.init).st)
    (by decide) rfl rfl (by decide) (by decide) (by decide)

/-- C4 fails as stated, twice. At the clock readings 1988477311 and
1988477312 both calls succeed and the timestamp field drops from 2^29 - 1
to 0. And in a run of 131073 calls at one clock reading the last two calls
both succeed, with equal timestamp fields, and the sequence field drops
from 131071 to 0. The same drop happens between the last two calls of a
run of 2^64 + 1 calls at one clock reading, where the int64 sequence
counter goes from -1 to 0. -/
theorem runGen_fields_monotone_counterexample :
    (∃ a b : GenOut,
      (runGen 3 5 State.init [1988477311, 1988477312])[0]? = some a ∧
      (runGen 3 5 State.init [1988477311, 1988477312])[1]? = some b ∧
      a.err = none ∧ b.err = none ∧
      tsField a.id = 536870911 ∧ tsField b.id = 0) ∧
    (∃ a b : GenOut,
      (runGen 3 5 State.init (List.replicate 131073 1451606400))[131071]? = some a ∧
      (runGen 3 5 State.init (List.replicate 131073 1451606400))[131072]? = some b ∧
      a.err = none ∧ b.err = none ∧
      tsField a.id = tsField b.id ∧ seqField a.id = 131071 ∧ seqField b.id = 0) ∧
    (∃ a b : GenOut,
      (runGen 3 5 State.init
        (List.replicate 18446744073709551617 1451606400))[18446744073709551615]? = some a ∧
      (runGen 3 5 State.init
        (List.replicate 18446744073709551617 1451606400))[18446744073709551616]? = some b ∧
      a.err = none ∧ b.err = none ∧ b.st.seq = 0 ∧
      tsField a.id = tsField b.id ∧ seqField a.id = 131071 ∧ seqField b.id = 0) := by
  refine ⟨⟨_, _, rfl, rfl, by decide, by decide, by decide, by decide⟩, ?_, ?_⟩
  · exact ⟨_, _,
      runGen_same_second 3 5 1451606400 131073 131071 (by decide) (by decide) (by decide),
      runGen_same_second 3 5 1451606400 131073 131072 (by decide) (by decide) (by decide),
      rfl, rfl, by decide, by decide, by decide⟩
  · exact ⟨_, _,
      runGen_same_second_any 3 5 1451606400 18446744073709551617 18446744073709551614
        (by decide) (by decide),
      runGen_same_second_any 3 5 1451606400 18446744073709551617 18446744073709551615
        (by decide) (by decide),
      by decide, by decide, by decide, by decide, by decide, by decide⟩

/-- C5 on the code. In a run of 262144 calls at one clock reading from the
initial state, the call that issues sequence 131071 succeeds, and so does
the next one: it leaves the sequence counter at 131072 and returns an ID
with sequence field 0, the ID of the first call. The calls go on
succeeding up to sequence counter 262142; the first call to fail with the
wait-one-second error is the one that takes the counter to 262143. -/
theorem runGen_overflow_boundary :
    (∃ a : GenOut,
      (runGen 3 5 State.init (List.replicate 262144 1451606400))[131071]? = some a ∧
      a.err = none ∧ a.st.seq = 131071 ∧ seqField a.id = 131071) ∧
    (∃ a b : GenOut,
      (runGen 3 5 State.init (List.replicate 262144 1451606400))[0]? = some a ∧
      (runGen 3 5 State.init (List.replicate 262144 1451606400))[131072]? = some b ∧
      a.err = none ∧ b.err = none ∧ b.st.seq = 131072 ∧ seqField b.id = 0 ∧ b.id = a.id) ∧
    (∃ a : GenOut,
      (runGen 3 5 State.init (List.replicate 262144 1451606400))[262142]? = some a ∧
      a.err = none ∧ a.st.seq = 262142) ∧
    (runGen 3 5 State.init (List.replicate 262144 1451606400))[262143]? =
      some { id := -1, err := some .waitOneSecond,
             st := { last_ts := 1451606400, seq := 262143 } } := by
  refine ⟨⟨_, runGen_same_second 3 5 1451606400 262144 131071 (by decide) (by decide)
      (by decide), rfl, rfl, by decide⟩,
    ⟨_, _, runGen_same_second 3 5 1451606400 262144 0 (by decide) (by decide) (by decide),
      runGen_same_second 3 5 1451606400 262144 131072 (by decide) (by decide) (by decide),
      rfl, rfl, rfl, by decide, by decide⟩,
    ⟨_, runGen_same_second 3 5 1451606400 262144 262142 (by decide) (by decide) (by decide),
      rfl, rfl⟩,
    runGen_same_second_exhausted 3 5 1451606400 262144 (by decide) (by decide)⟩

/-! ## The watermark written and read back -/

/-- The startup check is the comparison of the clock with the watermark
that read_last_ts finds. -/
theorem check_last_ts_eq_read (now m : Int) (kv : String → KVGet) :
    check_last_ts now m kv =
      match read_last_ts m kv with
      | .panic => .panic
      | .ret none => .ret (1, none)
      | .ret (some w) =>
        if w = 0 then .ret (1, none)
        else if now < w then .ret (-1, some (.badDatetime now w))
        else .ret (1, none) := by
  unfold check_last_ts read_last_ts
  cases h : kv (get_last_ts_key m) with
  | error => simp only [h]
  | absent => simp only [h]
  | present value =>
    simp only [h]
    cases ParseInt value <;> rfl

theorem Store.get_put_same (store : Store) (key value : String) :
    (store.put key value).get key = .present value := by
  simp [Store.get, Store.put]

/-- C12. Watermark write/read round trip: on the store as a map,
update_last_ts(ts, machine_id) with an int64 ts binds the key
"machine_<machine_id>/ts" to the decimal text of ts and changes no other
key, and the watermark that check_last_ts then reads for that machine is
ts again. -/
theorem update_last_ts_roundtrip (ts m now : Int) (store : Store) (hts : isInt64 ts) :
    get_last_ts_key m = "machine_" ++ FormatInt m ++ "/ts" ∧
      (update_last_ts ts m store .ok).1 = .ret (1, none) ∧
      (update_last_ts ts m store .ok).2 (get_last_ts_key m) = some (FormatInt ts) ∧
      (∀ k : String, k ≠ get_last_ts_key m → (update_last_ts ts m store .ok).2 k = store k) ∧
      read_last_ts m (update_last_ts ts m store .ok).2.get = .ret (some ts) ∧
      check_last_ts now m (update_last_ts ts m store .ok).2.get =
        (if ts = 0 then .ret (1, none)
         else if now < ts then .ret (-1, some (.badDatetime now ts))
         else .ret (1, none)) := by
  have hread : read_last_ts m (update_last_ts ts m store .ok).2.get = .ret (some ts) := by
    simp only [read_last_ts, update_last_ts, Store.get_put_same, ParseInt_FormatInt ts hts]
  refine ⟨rfl, rfl, ?_, ?_, hread, ?_⟩
  · simp [update_last_ts, Store.put]
  · intro k hk
    simp [update_last_ts, Store.put, hk]
  · rw [check_last_ts_eq_read, hread]

theorem update_last_ts_roundtrip_witness :
    get_last_ts_key 7 = "machine_" ++ FormatInt 7 ++ "/ts" ∧
      (update_last_ts 1451606400 7 (fun _ => none) .ok).1 = .ret (1, none) ∧
      (update_last_ts 1451606400 7 (fun _ => none) .ok).2 (get_last_ts_key 7)
        = some (FormatInt 1451606400) ∧
      (∀ k : String, k ≠ get_last_ts_key 7 →
        (update_last_ts 1451606400 7 (fun _ => none) .ok).2 k = (fun _ => none) k) ∧
      read_last_ts 7 (update_last_ts 1451606400 7 (fun _ => none) .ok).2.get
        = .ret (some 1451606400) ∧
      check_last_ts 1451606395 7 (update_last_ts 1451606400 7 (fun _ => none) .ok).2.get =
        (if (1451606400 : Int) = 0 then .ret (1, none)
         else if (1451606395 : Int) < 1451606400 then
           .ret (-1, some (.badDatetime 1451606395 1451606400))
         else .ret (1, none)) :=
  update_last_ts_roundtrip 1451606400 7 1451606395 (fun _ => none) (by decide)

/-! ## Range, order and fields of the packed ID -/

/-- C13. Reserved sign bit: an ID returned by a successful gen call lies in
0 <= id < 2^58, whatever the clock reading, the identifiers and the
sequence counter are; so bit 63 is clear and the ID is not the value -1
that gen returns on failure. -/
theorem gen_id_range (now m n : Int) (s : State) (hok : (gen now m n s).err = none) :
    0 ≤ (gen now m n s).id ∧ (gen now m n s).id < 2 ^ 58 ∧
      signBit (gen now m n s).id = 0 ∧ (gen now m n s).id ≠ -1 := by
  have hid := (gen_ok_shape now m n s hok).2
  have h0 := pack_nonneg (now - epoch) m n (gen now m n s).st.seq
  have h1 := pack_lt (now - epoch) m n (gen now m n s).st.seq
  rw [← hid] at h0 h1
  refine ⟨h0, h1, ?_, by omega⟩
  have hb := bits64_of_nonneg _ h0 (by omega)
  have hlt : bits64 (gen now m n s).id < 2 ^ 63 := by omega
  unfold signBit
  rw [Nat.shiftRight_eq_div_pow, Nat.div_eq_of_lt hlt, Nat.zero_and]

theorem gen_id_range_witness :
    0 ≤ (gen 1451606400 3 5 State.init).id ∧ (gen 1451606400 3 5 State.init).id < 2 ^ 58 ∧
      signBit (gen 1451606400 3 5 State.init).id = 0 ∧
      (gen 1451606400 3 5 State.init).id ≠ -1 :=
  gen_id_range 1451606400 3 5 State.init (by decide)

/-- C14. Time ordering across processes: of two packed IDs with timestamp
offsets t1 < t2, both in 0..2^29-1, the one with t1 is the smaller number,
whatever the machine ids, node ids and sequence values on the two sides
are. -/
theorem pack_lt_of_ts_lt (t1 t2 m1 n1 q1 m2 n2 q2 : Int)
    (h1 : 0 ≤ t1) (h12 : t1 < t2) (h2 : t2 < 536870912) :
    pack t1 m1 n1 q1 < pack t2 m2 n2 q2 := by
  rw [pack_eq, pack_eq]
  omega

theorem pack_lt_of_ts_lt_witness :
    pack 10 63 63 131071 < pack 11 0 0 0 :=
  pack_lt_of_ts_lt 10 11 63 63 131071 0 0 0 (by decide) (by decide) (by decide)

/-- C20. Field isolation: for integers t, m, n, s of any size and sign the
packed ID reads back as t mod 2^29, m mod 64, n mod 64 and s mod 2^17; the
timestamp, machine and node fields are the same for every sequence value. -/
theorem pack_fields_mod (t m n s : Int) :
    tsField (pack t m n s) = t % 2 ^ 29 ∧
      machineField (pack t m n s) = m % 64 ∧
      nodeField (pack t m n s) = n % 64 ∧
      seqField (pack t m n s) = s % 2 ^ 17 ∧
      (∀ s2 : Int,
        tsField (pack t m n s2) = tsField (pack t m n s) ∧
        machineField (pack t m n s2) = machineField (pack t m n s) ∧
        nodeField (pack t m n s2) = nodeField (pack t m n s)) := by
  refine ⟨tsField_pack t m n s, machineField_pack t m n s, nodeField_pack t m n s,
    seqField_pack t m n s, fun s2 => ?_⟩
  simp only [tsField_pack, machineField_pack, nodeField_pack, and_self]

/-- C16 on the code. The clock reading 1988477312 = 1451606400 + 2^29 lies
inside the 30-bit span that the comment of gen names, but the timestamp
field of the ID is 0, not 2^29: TS_MASK keeps 29 bits. The ID minted at
1451606400 carries the same timestamp field; the two IDs are equal. -/
theorem gen_ts_field_at_two_pow_29 :
    (1451606400 : Int) ≤ 1988477312 ∧ (1988477312 : Int) < 1451606400 + 2 ^ 30 ∧
      (gen 1988477312 3 5 State.init).err = none ∧
      tsField (gen 1988477312 3 5 State.init).id = 0 ∧
      (1988477312 : Int) - 1451606400 = 536870912 ∧
      (gen 1451606400 3 5 State.init).err = none ∧
      tsField (gen 1451606400 3 5 State.init).id = 0 ∧
      (gen 1988477312 3 5 State.init).id = (gen 1451606400 3 5 State.init).id := by
  decide

/-! ## The clock-regression failure leaves the state alone -/

/-- C19. A clock-regression failure is atomic: in a state with a recorded
second L (last_ts is not -1) a call at a clock reading now < L fails and
leaves last_ts and seq as they were, so the next call, at any clock
reading, returns the ID and leaves the state it would have without the
failed call. -/
theorem gen_regress_atomic (now now2 m n : Int) (s : State) (hset : s.last_ts ≠ -1)
    (hlt : now < s.last_ts) :
    (gen now m n s).err = some (.waitFor (wrap64 (s.last_ts - now))) ∧
      (gen now m n s).st = s ∧
      gen now2 m n (gen now m n s).st = gen now2 m n s := by
  rw [gen_regressed now m n s hset hlt]
  exact ⟨rfl, rfl, rfl⟩

theorem gen_regress_atomic_witness :
    (gen 1451606400 3 5 { last_ts := 1451606405, seq := 2 }).err
        = some (.waitFor (wrap64 ((1451606405 : Int) - 1451606400))) ∧
      (gen 1451606400 3 5 { last_ts := 1451606405, seq := 2 }).st
        = { last_ts := 1451606405, seq := 2 } ∧
      gen 1451606405 3 5 (gen 1451606400 3 5 { last_ts := 1451606405, seq := 2 }).st
        = gen 1451606405 3 5 { last_ts := 1451606405, seq := 2 } :=
  gen_regress_atomic 1451606400 1451606405 3 5 { last_ts := 1451606405, seq := 2 }
    (by decide) (by decide)

/-! ## Numbering within a new second -/

/-- C18. Sequential same-second numbering: in a state whose recorded second
is earlier than s, N <= 131072 successive calls that all observe s all
succeed, call number k (k = 0..N-1) returns the ID that packs sequence k and
whose sequence field is k, and of two of these calls the later one returns
the larger ID (so the N IDs are pairwise distinct). -/
theorem runGen_new_second_numbering (m n now : Int) (s : State) (N : Nat)
    (hnew : s.last_ts < now) (hN : N ≤ 131072) :
    (∀ k : Nat, k < N →
      ∃ o : GenOut, (runGen m n s (List.replicate N now))[k]? = some o ∧
        o.err = none ∧ o.id = pack (now - 1451606400) m n k ∧ seqField o.id = k) ∧
    (∀ i j : Nat, i < j → j < N →
      ∃ a b : GenOut, (runGen m n s (List.replicate N now))[i]? = some a ∧
        (runGen m n s (List.replicate N now))[j]? = some b ∧ a.id < b.id) := by
  have hget : ∀ k : Nat, k < N →
      (runGen m n s (List.replicate N now))[k]? =
        some { id := pack (now - epoch) m n k, err := none,
               st := { last_ts := now, seq := k } } := by
    intro k hk
    exact runGen_new_second m n now s N k (Or.inr hnew) hk (by unfold MAX_SEQ; omega)
  refine ⟨fun k hk => ⟨_, hget k hk, rfl, rfl, ?_⟩, fun i j hij hj => ?_⟩
  · show seqField (pack (now - epoch) m n k) = k
    rw [seqField_pack]
    omega
  · refine ⟨_, _, hget i (by omega), hget j hj, ?_⟩
    show pack (now - epoch) m n i < pack (now - epoch) m n j
    rw [pack_eq, pack_eq]
    omega

theorem runGen_new_second_numbering_witness :
    (∀ k : Nat, k < 3 →
      ∃ o : GenOut, (runGen 3 5 State.init (List.replicate 3 1451606400))[k]? = some o ∧
        o.err = none ∧ o.id = pack (1451606400 - 1451606400) 3 5 k ∧ seqField o.id = k) ∧
    (∀ i j : Nat, i < j → j < 3 →
      ∃ a b : GenOut, (runGen 3 5 State.init (List.replicate 3 1451606400))[i]? = some a ∧
        (runGen 3 5 State.init (List.replicate 3 1451606400))[j]? = some b ∧ a.id < b.id) :=
  runGen_new_second_numbering 3 5 1451606400 State.init 3 (by decide) (by decide)

/-! ## After the sequence is exhausted -/

/-- From the state that a sequence-exhausted failure at the second now
leaves: the further calls at now fail with the same error while the
counter stays below 2^63, and after k such calls a call at a later second
succeeds with sequence 0. -/
theorem gen_exhausted_then (m n now : Int) (s0 : State) (k : Nat)
    (hfail : (gen now m n s0).err = some .waitOneSecond)
    (hk : (gen now m n s0).st.seq + (k : Int) < 2 ^ 63) :
    (∀ j : Nat, j < k →
      (runGen m n (gen now m n s0).st (List.replicate k now))[j]? =
        some { id := -1, err := some .waitOneSecond,
               st := { last_ts := now, seq := (gen now m n s0).st.seq + j + 1 } }) ∧
    (∀ now2 : Int, now < now2 →
      gen now2 m n (finalState m n (gen now m n s0).st (List.replicate k now)) =
        { id := pack (now2 - 1451606400) m n 0, err := none,
          st := { last_ts := now2, seq := 0 } }) := by
  obtain ⟨h1, h2, h3⟩ := gen_exhausted_st now m n s0 hfail
  generalize (gen now m n s0).st = st at h1 h2 h3 hk ⊢
  unfold MAX_SEQ at h2
  have hfin : ∀ j : Nat, j ≤ k →
      finalState m n st (List.replicate j now) = { last_ts := now, seq := st.seq + j } := by
    intro j hj
    have hw : wrap64 (st.seq + j) = st.seq + j :=
      wrap64_of_isInt64 _ ⟨by omega, by omega⟩
    rw [finalState_same_second_wrap m n now j st h1 h3, hw]
  refine ⟨fun j hj => ?_, fun now2 h => ?_⟩
  · rw [runGen_getElem?, List.getElem?_replicate_of_lt hj, List.take_replicate,
      Nat.min_eq_left (Nat.le_of_lt hj)]
    simp only [Option.map_some']
    rw [hfin j (Nat.le_of_lt hj),
      gen_same_exhausted now m n { last_ts := now, seq := st.seq + j } rfl
        (by unfold MAX_SEQ; show (2 : Int) ^ 18 - 1 ≤ st.seq + j + 1; omega)
        (by show st.seq + j + 1 < 2 ^ 63; omega)]
  · rw [hfin k (Nat.le_refl k)]
    exact gen_fresh now2 m n _ (Or.inr h)

theorem finalState_append (m n : Int) (l1 l2 : List Int) :
    ∀ s : State, finalState m n s (l1 ++ l2) = finalState m n (finalState m n s l1) l2 := by
  induction l1 with
  | nil => intro s; rfl
  | cons now rest ih => intro s; simp [finalState, ih]

/-- In a run short of the int64 limit the sequence counter is not negative
and counts at most the calls made. -/
theorem finalState_seq_bound (m n : Int) (nows : List Int) :
    ∀ s : State, 0 ≤ s.seq → s.seq + (nows.length : Int) < 2 ^ 63 →
      0 ≤ (finalState m n s nows).seq ∧
        (finalState m n s nows).seq ≤ s.seq + (nows.length : Int) := by
  induction nows with
  | nil => intro s h0 _; simp [finalState, h0]
  | cons now rest ih =>
    intro s h0 hlen
    rw [List.length_cons] at hlen ⊢
    push_cast at hlen ⊢
    have hw : wrap64 (s.seq + 1) = s.seq + 1 := wrap64_of_isInt64 _ ⟨by omega, by omega⟩
    rw [finalState]
    rcases gen_cases now m n s with ⟨_, _, h⟩ | ⟨_, _, h⟩ | ⟨_, _, h⟩ | ⟨_, _, h⟩
    · rw [h]
      have hi := ih s h0 (by omega)
      dsimp only at hi ⊢
      omega
    · rw [h, hw]
      have hi := ih { last_ts := now, seq := s.seq + 1 } (by show 0 ≤ s.seq + 1; omega)
        (by show s.seq + 1 + (rest.length : Int) < 2 ^ 63; omega)
      dsimp only at hi ⊢
      omega
    · rw [h, hw]
      have hi := ih { last_ts := now, seq := s.seq + 1 } (by show 0 ≤ s.seq + 1; omega)
        (by show s.seq + 1 + (rest.length : Int) < 2 ^ 63; omega)
      dsimp only at hi ⊢
      omega
    · rw [h]
      have hi := ih { last_ts := now, seq := 0 } (by show (0 : Int) ≤ 0; omega)
        (by show (0 : Int) + (rest.length : Int) < 2 ^ 63; omega)
      dsimp only at hi ⊢
      omega

theorem getElem?_append_cons_add {α : Type} (A B : List α) (x : α) (p j : Nat)
    (hA : A.length = p) : (A ++ x :: B)[p + 1 + j]? = B[j]? := by
  subst hA
  rw [List.getElem?_append_right (by omega)]
  have h : A.length + 1 + j - A.length = j + 1 := by omega
  rw [h, List.getElem?_cons_succ]

/-- The calls of a run after the call number pre.length are the run from
the state that call leaves. -/
theorem runGen_after (m n s : Int) (pre rest : List Int) (j : Nat) :
    (runGen m n State.init (pre ++ s :: rest))[pre.length + 1 + j]? =
      (runGen m n (gen s m n (finalState m n State.init pre)).st rest)[j]? := by
  rw [runGen_append]
  simp only [runGen]
  exact getElem?_append_cons_add _ _ _ _ _ (runGen_length m n pre State.init)

/-- C11. Sequence exhaustion is retryable after the second boundary. Take a
run of fewer than 2^63 calls from the initial state: any calls pre, then a
call observing the second s that fails with the sequence-exhausted error,
then k calls that still observe s, then a call observing a later second
s2. Each of the k calls fails with the sequence-exhausted error and
returns -1, and the call observing s2 succeeds with sequence 0. -/
theorem gen_exhausted_retry (m n s : Int) (pre : List Int) (k : Nat)
    (hlen : ((pre.length + k + 2 : Nat) : Int) < 2 ^ 63)
    (hfail : (gen s m n (finalState m n State.init pre)).err = some .waitOneSecond) :
    (∀ j : Nat, j < k →
      ∃ o : GenOut,
        (runGen m n State.init (pre ++ s :: List.replicate k s))[pre.length + 1 + j]? = some o ∧
        o.id = -1 ∧ o.err = some .waitOneSecond) ∧
    (∀ s2 : Int, s < s2 →
      (runGen m n State.init
          (pre ++ s :: (List.replicate k s ++ [s2])))[pre.length + 1 + k]? =
        some { id := pack (s2 - 1451606400) m n 0, err := none,
               st := { last_ts := s2, seq := 0 } }) := by
  push_cast at hlen
  have hb := finalState_seq_bound m n pre State.init (by decide)
    (by show (0 : Int) + (pre.length : Int) < 2 ^ 63; omega)
  have hb2 : (finalState m n State.init pre).seq ≤ (pre.length : Int) := by
    have := hb.2
    simpa [State.init] using this
  have hst : (gen s m n (finalState m n State.init pre)).st.seq ≤ (pre.length : Int) + 1 := by
    have hw : wrap64 ((finalState m n State.init pre).seq + 1)
        = (finalState m n State.init pre).seq + 1 :=
      wrap64_of_isInt64 _ ⟨by omega, by omega⟩
    rcases gen_cases s m n (finalState m n State.init pre) with
      ⟨_, _, h⟩ | ⟨_, _, h⟩ | ⟨_, _, h⟩ | ⟨_, _, h⟩
    · rw [h]; dsimp only; omega
    · rw [h, hw]; dsimp only; omega
    · rw [h, hw]; dsimp only; omega
    · rw [h]; dsimp only; omega
  obtain ⟨g1, g2⟩ := gen_exhausted_then m n s (finalState m n State.init pre) k hfail
    (by omega)
  refine ⟨fun j hj => ?_, fun s2 h => ?_⟩
  · rw [runGen_after]
    exact ⟨_, g1 j hj, rfl, rfl⟩
  · rw [runGen_after, runGen_append]
    have hl : (runGen m n (gen s m n (finalState m n State.init pre)).st
        (List.replicate k s)).length = k := by
      rw [runGen_length, List.length_replicate]
    rw [List.getElem?_append_right (by omega), hl, Nat.sub_self]
    simp only [runGen, List.getElem?_cons_zero]
    rw [g2 s2 h]

theorem gen_exhausted_retry_witness :
    (∀ j : Nat, j < 2 →
      ∃ o : GenOut,
        (runGen 3 5 State.init
          (List.replicate 262143 1451606400 ++ 1451606400 :: List.replicate 2 1451606400))[
            (List.replicate 262143 (1451606400 : Int)).length + 1 + j]? = some o ∧
        o.id = -1 ∧ o.err = some .waitOneSecond) ∧
    (∀ s2 : Int, 1451606400 < s2 →
      (runGen 3 5 State.init
          (List.replicate 262143 1451606400 ++
            1451606400 :: (List.replicate 2 1451606400 ++ [s2])))[
              (List.replicate 262143 (1451606400 : Int)).length + 1 + 2]? =
        some { id := pack (s2 - 1451606400) 3 5 0, err := none,
               st := { last_ts := s2, seq := 0 } }) :=
  gen_exhausted_retry 3 5 1451606400 (List.replicate 262143 1451606400) 2
    (by rw [List.length_replicate]; decide)
    (by
      have h : finalState 3 5 State.init (List.replicate 262143 1451606400) =
          { last_ts := 1451606400, seq := ((262142 : Nat) : Int) } :=
        finalState_init_same_second 3 5 1451606400 262142 (by decide) (by decide)
      rw [h]
      decide)

/-! ## Capacity of a second -/

/-- C15, as the code has it. In a run from the initial state over fewer
than 2^63 clock readings, none of them -1, at most 262143 successful calls
observe any one second t. And in a run of fewer than 2^63 calls that
starts a new second and stays in it, the calls that succeed are exactly
the first 262143. -/
theorem per_second_capacity (m n t : Int) (nows : List Int) (s : State) (now : Int)
    (N k : Nat)
    (hlen : (nows.length : Int) < 2 ^ 63) (hne : ∀ x ∈ nows, x ≠ -1)
    (hnew : (s.last_ts = -1 ∧ now ≠ -1) ∨ s.last_ts < now)
    (hN : (N : Int) < 2 ^ 63) (hk : k < N) :
    successesAt t (runGen m n State.init nows) ≤ 262143 ∧
      ∃ o : GenOut, (runGen m n s (List.replicate N now))[k]? = some o ∧
        (o.err = none ↔ k < 262143) := by
  constructor
  · have h := successesAt_le_budget m n t nows State.init (by decide)
      (by simpa [State.init] using hlen) hne
    rw [if_pos (by rfl)] at h
    omega
  · by_cases hlt : k < 262143
    · exact ⟨_, runGen_new_second m n now s N k hnew hk (by unfold MAX_SEQ; omega),
        fun _ => hlt, fun _ => rfl⟩
    · obtain ⟨j, rfl⟩ : ∃ j, k = j + 1 := ⟨k - 1, by omega⟩
      have hw : wrap64 (j : Int) = j := wrap64_of_isInt64 _ ⟨by omega, by omega⟩
      refine ⟨_, runGen_new_second_any m n now s N j hnew hk, ?_⟩
      rw [hw, gen_same_exhausted now m n { last_ts := now, seq := (j : Int) } rfl
        (by unfold MAX_SEQ; show (2 : Int) ^ 18 - 1 ≤ (j : Int) + 1; omega)
        (by show (j : Int) + 1 < 2 ^ 63; omega)]
      constructor
      · intro h; exact absurd h (by simp)
      · intro h; exact absurd h hlt

theorem per_second_capacity_witness :
    successesAt 1451606400
        (runGen 3 5 State.init [1451606400, 1451606400, 1451606401]) ≤ 262143 ∧
      ∃ o : GenOut, (runGen 3 5 State.init (List.replicate 3 1451606400))[2]? = some o ∧
        (o.err = none ↔ 2 < 262143) :=
  per_second_capacity 3 5 1451606400 [1451606400, 1451606400, 1451606401] State.init
    1451606400 3 2 (by decide) (by decide) (Or.inl (by decide)) (by decide) (by decide)

/-- C15 fails as stated, twice. The clock reading -1 is also the value of
last_ts that stands for "no second recorded": after 262142 successful calls
at -1 a call at -3 is accepted, and two more calls at -1 succeed, 262144
successful calls observing the second -1. And the int64 counter wraps: in a
run of 2^63 + 1 calls at one clock reading the first 262143 calls succeed
and so does the last one. -/
theorem per_second_capacity_counterexample :
    262143 < successesAt (-1)
        (runGen 3 5 State.init (List.replicate 262142 (-1) ++ [-3, -1, -1])) ∧
    262143 < successesAt 1451606400
        (runGen 3 5 State.init (List.replicate 9223372036854775809 1451606400)) := by
  constructor
  · rw [runGen_append, successesAt_append,
      successesAt_same_second 3 5 (-1) 262142 State.init rfl (by decide) (by decide),
      finalState_same_second 3 5 (-1) 262142 State.init rfl (by decide) (by decide)]
    decide
  · have hsplit : List.replicate 9223372036854775809 (1451606400 : Int) =
        List.replicate 262143 1451606400 ++ List.replicate 9223372036854513666 1451606400 :=
      List.replicate_add 262143 9223372036854513666 (1451606400 : Int)
    have hfirst : successesAt 1451606400
        (runGen 3 5 State.init (List.replicate 262143 1451606400)) = 262143 :=
      successesAt_new_second 3 5 1451606400 State.init 262143 (Or.inl (by decide))
        (by decide)
    have hstate : finalState 3 5 State.init (List.replicate 262143 1451606400) =
        { last_ts := 1451606400, seq := ((262142 : Nat) : Int) } :=
      finalState_init_same_second 3 5 1451606400 262142 (by decide) (by decide)
    have hlast := runGen_same_second_get 3 5 1451606400
      { last_ts := 1451606400, seq := ((262142 : Nat) : Int) }
      9223372036854513666 9223372036854513665 rfl (by decide) (by decide)
    have hpos := successesAt_pos 1451606400 _ _ _ hlast (by decide) (by decide)
    rw [hsplit, runGen_append, successesAt_append, hfirst, hstate]
    omega

end Kid
